import Mathlib

/-! Storage: the promotion cache rebuild pipeline (`app.go`).

A shallow embedding of `app.go`: the record parser (`parsePromotion`), the
workers (`storePromotions`, `createChannels`), the rebuild job of
`scheduleDataImport` and the lookup handler `retrievePromotion`, together with
the parts of the Go standard library they call.

Go strings are modelled as lists of characters (`Str`), i.e. as the valid
UTF-8 texts; every byte the code inspects (`,`, space, digits, `%`, ...) is
ASCII, so indexing by character and by byte agree on what the code observes.
-/

namespace Storage

/-- A Go string. -/
abbrev Str := List Char

/-- Result of running Go code that may panic at run time. -/
inductive Result (α : Type) where
  | ok (a : α)
  | panic (msg : String)
  deriving DecidableEq, Repr

/-! ## package `strings` -/

/-- The Go call `strings.Split(s, sep)` for a one-character separator: the
fields between the separators, always at least one field. -/
def Split : Str → Char → List Str
  | [], _ => [[]]
  | c :: cs, sep =>
    if c = sep then [] :: Split cs sep
    else
      match Split cs sep with
      | [] => [[c]]
      | f :: fs => (c :: f) :: fs

/-- Scan for `strings.LastIndex`: `i` is the index of the head of the list,
`acc` the last index found so far. -/
def LastIndexFrom (c : Char) : Str → Nat → Int → Int
  | [], _, acc => acc
  | x :: xs, i, acc => LastIndexFrom c xs (i + 1) (if x = c then (i : Int) else acc)

/-- The Go call `strings.LastIndex(s, sep)` for a one-character separator: the
index of the last occurrence, or `-1`. -/
def LastIndex (s : Str) (c : Char) : Int := LastIndexFrom c s 0 (-1)

/-- The slice expression `s[:hi]`; panics when `hi` is out of range. -/
def sliceTo (s : Str) (hi : Int) : Result Str :=
  if 0 ≤ hi ∧ hi ≤ (s.length : Int) then .ok (s.take hi.toNat)
  else .panic "slice bounds out of range"

/-- The index expression `xs[i]` on a slice; panics when out of range. -/
def index (xs : List Str) (i : Nat) : Result Str :=
  match xs[i]? with
  | some x => .ok x
  | none => .panic "index out of range"

/-! ## package `time`: `time.Parse` and `Time.Format` -/

/-- A `time.Time` in UTC, by its civil fields. -/
structure Time where
  year : Nat
  month : Nat
  day : Nat
  hour : Nat
  min : Nat
  sec : Nat
  deriving DecidableEq, Repr

/-- The zero value `time.Time{}`: January 1, year 1, 00:00:00 UTC. -/
def Time.zero : Time := ⟨1, 1, 1, 0, 0, 0⟩

/-- The function `isDigit(s, 0)` of package time. -/
def isDigit (c : Char) : Bool := '0' ≤ c && c ≤ '9'

/-- Value of a decimal digit. -/
def digitVal (c : Char) : Nat := c.toNat - '0'.toNat

/-- The function `getnum` of package time: one or two digits; two are
required when `fixed`. -/
def getnum (s : Str) (fixed : Bool) : Option (Nat × Str) :=
  match s with
  | a :: b :: rest =>
    if !isDigit a then none
    else if !isDigit b then (if fixed then none else some (digitVal a, b :: rest))
    else some (digitVal a * 10 + digitVal b, rest)
  | [a] =>
    if !isDigit a then none
    else if fixed then none else some (digitVal a, [])
  | [] => none

/-- The function `cutspace` of package time. -/
def cutspace : Str → Str
  | ' ' :: s => cutspace s
  | s => s

/-- The loop of `skip`; `fuel` bounds the number of iterations, each of which
shortens the layout literal. -/
def skipLoop : Nat → Str → Str → Option Str
  | 0, value, _ => some value
  | _ + 1, value, [] => some value
  | fuel + 1, value, p :: ps =>
    if p = ' ' then
      match value with
      | v :: vs =>
        if v ≠ ' ' then none else skipLoop fuel (cutspace (v :: vs)) (cutspace (p :: ps))
      | [] => skipLoop fuel [] (cutspace (p :: ps))
    else
      match value with
      | v :: vs => if v = p then skipLoop fuel vs ps else none
      | [] => none

/-- The function `skip` of package time: consume the layout literal `pfx`
from the front of `value`; a space of the layout matches any run of spaces
(also none at the end of the value). -/
def skip (value pfx : Str) : Option Str := skipLoop pfx.length value pfx

/-- The layout elements that occur in the layout of `parsePromotion`. -/
inductive Std where
  | stdLongYear
  | stdZeroMonth
  | stdZeroDay
  | stdHour
  | stdZeroMinute
  | stdZeroSecond
  deriving DecidableEq, Repr

/-- The layout `"2006-01-02 15:04:05 +0200"` of `parsePromotion` as the
successive results `(prefix, std)` of `nextStdChunk`: `2006`, `01`, `02`,
`15`, `04`, `05` are the year, month, day, hour, minute and second elements;
`+` is no layout element, and in `0200` the `02` is again the two-digit
day-of-month element (a `0` followed by `1`..`6` is an element). -/
def layoutChunks : List (Str × Std) :=
  [ ([], .stdLongYear), (['-'], .stdZeroMonth), (['-'], .stdZeroDay),
    ([' '], .stdHour), ([':'], .stdZeroMinute), ([':'], .stdZeroSecond),
    ([' ', '+'], .stdZeroDay) ]

/-- What remains of the layout after the last element: the literal `00`. -/
def layoutRest : Str := ['0', '0']

/-- The fields `time.Parse` collects. With this layout each of them is
assigned before it is read, so their initial values are not observable. -/
structure Fields where
  year : Nat := 0
  month : Nat := 0
  day : Nat := 0
  hour : Nat := 0
  min : Nat := 0
  sec : Nat := 0
  deriving DecidableEq, Repr

/-- The function `commaOrPeriod` of package time. -/
def commaOrPeriod (c : Char) : Bool := c = '.' || c = ','

/-- One iteration of the loop of `time.Parse` after the literal prefix was
skipped: read the element `std` from the front of `value`. `none` stands for
every error return (`errBad` as well as a range error). -/
def parseElem (std : Std) (value : Str) (f : Fields) : Option (Fields × Str) :=
  match std with
  | .stdLongYear =>
    match value with
    | a :: b :: c :: d :: rest =>
      if !isDigit a then none
      else if isDigit b && isDigit c && isDigit d then
        some ({ f with year := ((digitVal a * 10 + digitVal b) * 10 + digitVal c) * 10
                  + digitVal d }, rest)
      else none
    | _ => none
  | .stdZeroMonth =>
    match getnum value true with
    | some (n, rest) => if n = 0 ∨ 12 < n then none else some ({ f with month := n }, rest)
    | none => none
  | .stdZeroDay =>
    match getnum value true with
    | some (n, rest) => some ({ f with day := n }, rest)
    | none => none
  | .stdHour =>
    match getnum value false with
    | some (n, rest) => if 24 ≤ n then none else some ({ f with hour := n }, rest)
    | none => none
  | .stdZeroMinute =>
    match getnum value true with
    | some (n, rest) => if 60 ≤ n then none else some ({ f with min := n }, rest)
    | none => none
  | .stdZeroSecond =>
    match getnum value true with
    | some (n, rest) =>
      if 60 ≤ n then none
      else
        match rest with
        | c :: d :: more =>
          -- a fractional second in the input that the layout does not have
          if commaOrPeriod c && isDigit d then
            some ({ f with sec := n }, more.dropWhile isDigit)
          else some ({ f with sec := n }, rest)
        | _ => some ({ f with sec := n }, rest)
    | none => none

/-- The loop of `time.Parse` over the layout elements. -/
def parseChunks : List (Str × Std) → Str → Fields → Option (Fields × Str)
  | [], value, f => some (f, value)
  | (pfx, std) :: chunks, value, f =>
    match skip value pfx with
    | none => none
    | some v =>
      match parseElem std v f with
      | none => none
      | some (f1, v1) => parseChunks chunks v1 f1

/-- The function `isLeap` of package time. -/
def isLeap (year : Nat) : Bool := year % 4 = 0 && (year % 100 ≠ 0 || year % 400 = 0)

/-- The function `daysIn` of package time, for a month in `1..12`. -/
def daysIn (m year : Nat) : Nat :=
  if m = 2 then (if isLeap year then 29 else 28)
  else if m = 4 ∨ m = 6 ∨ m = 9 ∨ m = 11 then 30 else 31

/-- The call `time.Parse("2006-01-02 15:04:05 +0200", value)`; `none` is an
error return, with which `time.Parse` returns the zero `Time`. All fields are
in range on success, so `Date` does not normalise them. -/
def Parse (value : Str) : Option Time :=
  match parseChunks layoutChunks value {} with
  | none => none
  | some (f, v) =>
    match skip v layoutRest with
    | none => none
    | some rest =>
      if rest ≠ [] then none  -- extra text
      else if f.day < 1 ∨ daysIn f.month f.year < f.day then none  -- day out of range
      else some ⟨f.year, f.month, f.day, f.hour, f.min, f.sec⟩

/-- The character of a decimal digit. -/
def digitChar (d : Nat) : Char := Char.ofNat (48 + d)

/-- Decimal digits of `x`, most significant first, at most `fuel` of them. -/
def digitsAux : Nat → Nat → Str → Str
  | 0, _, acc => acc
  | fuel + 1, x, acc =>
    if x < 10 then digitChar x :: acc else digitsAux fuel (x / 10) (digitChar (x % 10) :: acc)

/-- The function `appendInt` of package time for `x ≥ 0`: the decimal digits
of `x`, zero-padded to `width`. -/
def appendInt (x width : Nat) : Str :=
  if width = 2 ∧ x < 100 then [digitChar (x / 10), digitChar (x % 10)]
  else if width = 4 ∧ x < 10000 then
    [digitChar (x / 100 / 10), digitChar (x / 100 % 10),
     digitChar (x % 100 / 10), digitChar (x % 100 % 10)]
  else
    let ds := digitsAux (x + 1) x []
    List.replicate (width - ds.length) '0' ++ ds

/-- The call `t.Format("2006-01-02 15:04:05")`. -/
def Time.Format (t : Time) : Str :=
  appendInt t.year 4 ++ '-' :: appendInt t.month 2 ++ '-' :: appendInt t.day 2 ++ ' ' ::
    appendInt t.hour 2 ++ ':' :: appendInt t.min 2 ++ ':' :: appendInt t.sec 2

/-! ## `float64`: IEEE-754 binary64 arithmetic, in exact integer arithmetic -/

/-- A `float64` value. A finite value is `(-1)^neg * m * 2^e` in canonical form:
`m < 2^53`, `-1074 ≤ e ≤ 971`, and `2^52 ≤ m` unless `e = -1074` (subnormal or
zero), so that equal values have equal representations. -/
inductive F64 where
  | nan
  | inf (neg : Bool)
  | fin (neg : Bool) (m : Nat) (e : Int)
  deriving DecidableEq, Repr

/-- Number of binary digits of `n` added to `acc`, by at most `fuel` halvings. -/
def bitLenAux : Nat → Nat → Nat → Nat
  | 0, _, acc => acc
  | fuel + 1, n, acc => if n = 0 then acc else bitLenAux fuel (n / 2) (acc + 1)

/-- Number of binary digits of `n`. -/
def bitLen (n : Nat) : Nat := bitLenAux n n 0

/-- The fraction `num / den` divided by `2^e`, as a fraction. -/
def scale2 (num den : Nat) (e : Int) : Nat × Nat :=
  if 0 ≤ e then (num, den * 2 ^ e.toNat) else (num * 2 ^ (-e).toNat, den)

/-- The integer nearest to `n / d`, ties to the even one. -/
def roundHalfEven (n d : Nat) : Nat :=
  let q := n / d
  let r := n % d
  if 2 * r < d then q else if d < 2 * r then q + 1 else if q % 2 = 0 then q else q + 1

/-- The `float64` nearest to `(-1)^neg * num / den` (`den > 0`), ties to even:
the rounding of every IEEE-754 operation. Overflow gives an infinity, and
underflow is gradual. -/
def roundRatio (neg : Bool) (num den : Nat) : F64 :=
  if num = 0 then .fin neg 0 (-1074)
  else
    let d : Int := (bitLen num : Int) - (bitLen den : Int)
    -- `2^(d-1) < num/den < 2^(d+1)`, so the binary exponent is `d` or `d - 1`
    let s := scale2 num den d
    let lg : Int := if s.2 ≤ s.1 then d else d - 1
    let e : Int := max (lg - 52) (-1074)
    let t := scale2 num den e
    let m := roundHalfEven t.1 t.2
    if m = 2 ^ 53 then (if 971 < e + 1 then .inf neg else .fin neg (2 ^ 52) (e + 1))
    else if 971 < e then .inf neg else .fin neg m e

/-- The exact value `m * 2^e` as a fraction. -/
def toRatio (m : Nat) (e : Int) : Nat × Nat :=
  if 0 ≤ e then (m * 2 ^ e.toNat, 1) else (m, 2 ^ (-e).toNat)

/-- The `float64` product `x * y`. -/
def F64.mul : F64 → F64 → F64
  | .nan, _ => .nan
  | _, .nan => .nan
  | .inf a, .inf b => .inf (xor a b)
  | .inf a, .fin b m _ => if m = 0 then .nan else .inf (xor a b)
  | .fin a m _, .inf b => if m = 0 then .nan else .inf (xor a b)
  | .fin a m e, .fin b n k =>
    let r := toRatio (m * n) (e + k)
    roundRatio (xor a b) r.1 r.2

/-- The `float64` quotient `x / y`. -/
def F64.div : F64 → F64 → F64
  | .nan, _ => .nan
  | _, .nan => .nan
  | .inf _, .inf _ => .nan
  | .inf a, .fin b _ _ => .inf (xor a b)
  | .fin a _ _, .inf b => .fin (xor a b) 0 (-1074)
  | .fin a m e, .fin b n k =>
    if n = 0 then (if m = 0 then .nan else .inf (xor a b))
    else
      let r := toRatio m (e - k)
      roundRatio (xor a b) r.1 (r.2 * n)

/-- The function `math.Ceil`: the least integer value not below `x`; the
special cases are `Ceil(±0) = ±0`, `Ceil(±Inf) = ±Inf`, `Ceil(NaN) = NaN`, and
a value in `(-1, 0)` gives `-0`. -/
def Ceil : F64 → F64
  | .nan => .nan
  | .inf a => .inf a
  | .fin a m e =>
    if 0 ≤ e then .fin a m e
    else
      let q := m / 2 ^ (-e).toNat
      let r := m % 2 ^ (-e).toNat
      if r = 0 then .fin a m e
      else if a then roundRatio true q 1
      else roundRatio false (q + 1) 1

/-- The `float64` of a natural number constant. -/
def F64.ofNat (n : Nat) : F64 := roundRatio false n 1

/-- The functions `math.IsInf(f, 0) || math.IsNaN(f)`. -/
def F64.isInfOrNaN : F64 → Bool
  | .fin _ _ _ => false
  | _ => true

/-! ## package `strconv`: `strconv.ParseFloat(s, 64)` -/

/-- ASCII lower case of a letter, as in `commonPrefixLenIgnoreCase`. -/
def toLowerAscii (c : Char) : Char :=
  if 'A' ≤ c ∧ c ≤ 'Z' then Char.ofNat (c.toNat + 32) else c

/-- The function `commonPrefixLenIgnoreCase` of package strconv; `pfx` is in
lower case. -/
def commonPrefixLenIgnoreCase : Str → Str → Nat
  | c :: s, p :: pfx => if toLowerAscii c = p then commonPrefixLenIgnoreCase s pfx + 1 else 0
  | _, _ => 0

/-- The function `special` of package strconv: an infinity or a NaN at the
front of `s`, with the number of characters it takes. -/
def special (s : Str) : Option (F64 × Nat) :=
  match s with
  | [] => none
  | c :: rest =>
    if c = '+' ∨ c = '-' ∨ c = 'i' ∨ c = 'I' then
      let signed := c = '+' ∨ c = '-'
      let body := if signed then rest else s
      let nsign := if signed then 1 else 0
      let n0 := commonPrefixLenIgnoreCase body "infinity".toList
      let n := if 3 < n0 ∧ n0 < 8 then 3 else n0
      if n = 3 ∨ n = 8 then some (.inf (c = '-'), nsign + n) else none
    else if c = 'n' ∨ c = 'N' then
      if commonPrefixLenIgnoreCase s "nan".toList = 3 then some (.nan, 3) else none
    else none

/-- A hexadecimal letter digit `a`..`f` or `A`..`F`. -/
def isHexLetter (c : Char) : Bool := ('a' ≤ c && c ≤ 'f') || ('A' ≤ c && c ≤ 'F')

/-- Value of a hexadecimal letter digit. -/
def hexLetterVal (c : Char) : Nat := (toLowerAscii c).toNat - 'a'.toNat + 10

/-- The state of the mantissa loop of `readFloat`. The mantissa is kept in
full (the code keeps 19 digits and a truncation flag, and then converts the
whole digit string when digits were dropped). -/
structure Mantissa where
  underscores : Bool := false
  sawdot : Bool := false
  sawdigits : Bool := false
  nd : Nat := 0
  dp : Int := 0
  mantissa : Nat := 0
  deriving DecidableEq, Repr

/-- The mantissa loop of `readFloat`: returns the state and the unread rest. -/
def readMantissa (base : Nat) : Str → Mantissa → Mantissa × Str
  | [], st => (st, [])
  | c :: cs, st =>
    if c = '_' then readMantissa base cs { st with underscores := true }
    else if c = '.' then
      if st.sawdot then (st, c :: cs)
      else readMantissa base cs { st with sawdot := true, dp := st.nd }
    else if isDigit c then
      if c = '0' ∧ st.nd = 0 then
        readMantissa base cs { st with sawdigits := true, dp := st.dp - 1 }
      else
        readMantissa base cs
          { st with sawdigits := true, nd := st.nd + 1,
                    mantissa := st.mantissa * base + digitVal c }
    else if base = 16 ∧ isHexLetter c then
      readMantissa base cs
        { st with sawdigits := true, nd := st.nd + 1,
                  mantissa := st.mantissa * 16 + hexLetterVal c }
    else (st, c :: cs)

/-- The exponent digit loop of `readFloat`: the exponent stops growing once it
has reached 10000. Returns the exponent, whether an underscore was seen, and
the unread rest. -/
def readExpDigits : Str → Nat → Bool → Nat × Bool × Str
  | [], e, u => (e, u, [])
  | c :: cs, e, u =>
    if c = '_' then readExpDigits cs e true
    else if isDigit c then readExpDigits cs (if e < 10000 then e * 10 + digitVal c else e) u
    else (e, u, c :: cs)

/-- The scan of `underscoreOK`: `saw` is the class of the last character
(`0` digit, `_` underscore, `!` other, `^` beginning). -/
def underscoreScan (hex : Bool) : Str → Char → Bool
  | [], saw => saw ≠ '_'
  | c :: cs, saw =>
    if isDigit c || (hex && isHexLetter c) then underscoreScan hex cs '0'
    else if c = '_' then (if saw ≠ '0' then false else underscoreScan hex cs '_')
    else if saw = '_' then false
    else underscoreScan hex cs '!'

/-- The function `underscoreOK` of package strconv: underscores only between
digits, or between a base prefix and a digit. -/
def underscoreOK (s : Str) : Bool :=
  let s1 := match s with
    | c :: rest => if c = '-' ∨ c = '+' then rest else s
    | [] => s
  match s1 with
  | a :: b :: rest =>
    let lb := toLowerAscii b
    if a = '0' ∧ (lb = 'b' ∨ lb = 'o' ∨ lb = 'x') then underscoreScan (lb = 'x') rest '0'
    else underscoreScan false s1 '^'
  | _ => underscoreScan false s1 '^'

/-- What `readFloat` extracts from a well-formed number: the sign, and the
value `mantissa * base^exp` with base 10, or `mantissa * 2^exp` when `hex`. -/
structure FloatLit where
  neg : Bool
  hex : Bool
  mantissa : Nat
  exp : Int
  deriving DecidableEq, Repr

/-- The function `readFloat` of package strconv on the whole of `s`; `none`
when `s` is not a well-formed number in its entirety (`ParseFloat` turns text
left unread into the same syntax error). -/
def readFloat (s : Str) : Option FloatLit :=
  match s with
  | [] => none
  | c0 :: rest0 =>
    let neg := c0 = '-'
    let s1 := if c0 = '+' ∨ c0 = '-' then rest0 else s
    let hex : Bool := match s1 with
      | a :: b :: _ :: _ => a = '0' ∧ toLowerAscii b = 'x'
      | _ => false
    let base := if hex then 16 else 10
    let (st, s2) := readMantissa base (if hex then s1.drop 2 else s1) {}
    if !st.sawdigits then none
    else
      let dp0 : Int := if st.sawdot then st.dp else st.nd
      let dp1 : Int := if hex then dp0 * 4 else dp0
      let ndMant : Int := if hex then (st.nd : Int) * 4 else st.nd
      let finish (dp : Int) (underscores : Bool) (s3 : Str) : Option FloatLit :=
        if s3 ≠ [] then none
        else if underscores && !underscoreOK s then none
        else some ⟨neg, hex, st.mantissa, if st.mantissa ≠ 0 then dp - ndMant else 0⟩
      match s2 with
      | c :: s3 =>
        if toLowerAscii c = (if hex then 'p' else 'e') then
          match s3 with
          | [] => none
          | d :: s4 =>
            let esign : Int := if d = '-' then -1 else 1
            let s5 := if d = '+' ∨ d = '-' then s4 else s3
            match s5 with
            | [] => none
            | f :: _ =>
              if !isDigit f then none
              else
                let (e, u, s6) := readExpDigits s5 0 st.underscores
                finish (dp1 + (e : Int) * esign) u s6
        else if hex then none
        else finish dp1 st.underscores s2
      | [] => if hex then none else finish dp1 st.underscores []

/-- The call `strconv.ParseFloat(s, 64)`, value only: the error is dropped,
as `parsePromotion` drops it. A syntax error leaves `0`; otherwise the result
is the `float64` nearest to the number written (an infinity when out of
range). -/
def ParseFloat (s : Str) : F64 :=
  match special s with
  | some (v, n) => if n = s.length then v else .fin false 0 (-1074)
  | none =>
    match readFloat s with
    | none => .fin false 0 (-1074)
    | some lit =>
      let b : Nat := if lit.hex then 2 else 10
      if 0 ≤ lit.exp then roundRatio lit.neg (lit.mantissa * b ^ lit.exp.toNat) 1
      else roundRatio lit.neg lit.mantissa (b ^ (-lit.exp).toNat)

/-! ## package `strconv`: shortest formatting of a `float64` -/

/-- The largest `k ≤ bound` with `den * 10^k ≤ num`, counting up from `k`
(`den ≤ num` assumed): the decimal exponent of a fraction that is at least 1. -/
def log10Up : Nat → Nat → Nat → Nat → Nat
  | 0, _, _, k => k
  | fuel + 1, num, den, k => if den * 10 ≤ num then log10Up fuel num (den * 10) (k + 1) else k

/-- The least `k` with `den ≤ num * 10^k`, counting up from `k` (`num < den`
assumed): minus the decimal exponent of a fraction below 1. -/
def log10Down : Nat → Nat → Nat → Nat → Nat
  | 0, _, _, k => k
  | fuel + 1, num, den, k => if den ≤ num then k else log10Down fuel (num * 10) den (k + 1)

/-- The decimal exponent `k` of the positive fraction `num / den`:
`10^k ≤ num / den < 10^(k+1)`. -/
def floorLog10 (num den : Nat) : Int :=
  if den ≤ num then (log10Up 400 num den 0 : Int) else -(log10Down 400 num den 0 : Int)

/-- The fraction `num / den` divided by `10^k`, as a fraction. -/
def scale10 (num den : Nat) (k : Int) : Nat × Nat :=
  if 0 ≤ k then (num, den * 10 ^ k.toNat) else (num * 10 ^ (-k).toNat, den)

/-- A decimal number `0.d₁d₂… * 10^dp`, as the `decimalSlice` of package
strconv: `digits` has no leading and no trailing zero, and is empty for 0. -/
structure Decimal where
  digits : List Nat
  dp : Int
  deriving DecidableEq, Repr

/-- The decimal digits of `n`, most significant first; none for `0`. -/
def natDigits : Nat → Nat → List Nat → List Nat
  | 0, _, acc => acc
  | fuel + 1, n, acc => if n = 0 then acc else natDigits fuel (n / 10) (n % 10 :: acc)

/-- Remove trailing zeros. -/
def stripZeros (ds : List Nat) : List Nat := (ds.reverse.dropWhile (· = 0)).reverse

/-- The integer `n` times `10^k` as a `Decimal`. -/
def Decimal.ofScaled (n : Nat) (k : Int) : Decimal :=
  let ds := natDigits (n + 1) n []
  ⟨stripZeros ds, (ds.length : Int) + k⟩

/-- Whether `x * 10^k` lies in the interval between the fractions `lo` and
`hi`, the end points included when `incl`. -/
def inInterval (x : Nat) (k : Int) (lo hi : Nat × Nat) (incl : Bool) : Bool :=
  let l := scale10 lo.1 lo.2 k   -- lo / 10^k
  let h := scale10 hi.1 hi.2 k   -- hi / 10^k
  if incl then l.1 ≤ x * l.2 && x * h.2 ≤ h.1
  else l.1 < x * l.2 && x * h.2 < h.1

/-- The search of `roundShortest`: with `n` digits kept (the unit is
`10^(k + 1 - n)`), truncate or round up the exact decimal as soon as one of
the two is a decimal that converts back to the same `float64`, i.e. lies
between `lo` and `hi`; when both do, take the nearer one (ties to even). -/
def shortestFrom : Nat → Nat → Nat × Nat → Int → Nat × Nat → Nat × Nat → Bool → Decimal
  | 0, n, v, k, _, _, _ =>
    let u : Int := k + 1 - n
    let s := scale10 v.1 v.2 u
    Decimal.ofScaled (s.1 / s.2) u
  | fuel + 1, n, v, k, lo, hi, incl =>
    let u : Int := k + 1 - n
    let s := scale10 v.1 v.2 u
    let down := s.1 / s.2
    let r := s.1 % s.2
    let okdown := inInterval down u lo hi incl
    let okup := inInterval (down + 1) u lo hi incl
    if r = 0 then Decimal.ofScaled down u
    else if okdown && okup then Decimal.ofScaled (roundHalfEven s.1 s.2) u
    else if okdown then Decimal.ofScaled down u
    else if okup then Decimal.ofScaled (down + 1) u
    else shortestFrom fuel (n + 1) v k lo hi incl

/-- The shortest decimal that converts back to the finite `float64`
`m * 2^e` (`strconv` formatting with precision `-1`): the rounding interval
reaches half way to the neighbouring values, and includes its end points when
`m` is even. -/
def shortest (m : Nat) (e : Int) : Decimal :=
  if m = 0 then ⟨[], 0⟩
  else
    let v := toRatio m e
    let hi := toRatio (2 * m + 1) (e - 1)
    let lo := if m = 2 ^ 52 ∧ -1074 < e then toRatio (4 * m - 1) (e - 2)
              else toRatio (2 * m - 1) (e - 1)
    shortestFrom 800 0 v (floorLog10 v.1 v.2) lo hi (m % 2 = 0)

/-- The `%e` form of package strconv, precision `-1`: `d.ddde±dd`. -/
def fmtE (neg : Bool) (d : Decimal) : Str :=
  let sign : Str := if neg then ['-'] else []
  let first : Str := match d.digits with
    | [] => ['0']
    | a :: _ => [digitChar a]
  let more : Str := match d.digits with
    | _ :: b :: rest => '.' :: (b :: rest).map digitChar
    | _ => []
  let exp : Int := if d.digits = [] then 0 else d.dp - 1
  let x := exp.natAbs
  let expDigits : Str :=
    if x < 10 then ['0', digitChar x]
    else if x < 100 then [digitChar (x / 10), digitChar (x % 10)]
    else [digitChar (x / 100), digitChar (x / 10 % 10), digitChar (x % 10)]
  sign ++ first ++ more ++ 'e' :: (if exp < 0 then '-' else '+') :: expDigits

/-- The `%f` form of package strconv, precision `-1`: `ddd.ddd`. -/
def fmtF (neg : Bool) (d : Decimal) : Str :=
  let sign : Str := if neg then ['-'] else []
  let nd := d.digits.length
  let intPart : Str :=
    if 0 < d.dp then
      (d.digits.take d.dp.toNat).map digitChar ++ List.replicate (d.dp.toNat - nd) '0'
    else ['0']
  let prec : Nat := ((nd : Int) - d.dp).toNat
  let frac : Str :=
    if 0 < prec then
      '.' :: (List.range prec).map (fun i =>
        let j : Int := d.dp + i
        if 0 ≤ j ∧ j < nd then digitChar (d.digits.getD j.toNat 0) else '0')
    else []
  sign ++ intPart ++ frac

/-! ## package `encoding/json`: `json.Marshal` of a `Promotion` -/

/-- Whether `m * 2^e < |c|` for a finite `float64` constant `c`. -/
def absLt (m : Nat) (e : Int) : F64 → Bool
  | .fin _ n k =>
    let a := toRatio m e
    let b := toRatio n k
    a.1 * b.2 < b.1 * a.2
  | _ => false

/-- The float encoder of `encoding/json` for a finite `float64`: as ES6 does,
`%f` form unless the value is nonzero and below `1e-6` or at least `1e21`,
then `%e` form with an exponent `e-0d` cleaned up to `e-d`. -/
def encodeFloat (neg : Bool) (m : Nat) (e : Int) : Str :=
  let d := shortest m e
  if m ≠ 0 ∧ (absLt m e (roundRatio false 1 (10 ^ 6)) || !absLt m e (roundRatio false (10 ^ 21) 1)) then
    let b := fmtE neg d
    match b.reverse with
    | x :: z :: sgn :: ee :: more =>
      if ee = 'e' ∧ (sgn = '-' ∨ sgn = '+') ∧ z = '0' then (x :: sgn :: ee :: more).reverse else b
    | _ => b
  else fmtF neg d

/-- The digits of `hex` in package json. -/
def hexDigit (n : Nat) : Char := "0123456789abcdef".toList.getD n '0'

/-- The string encoder of `encoding/json` with HTML escaping, which
`json.Marshal` uses: the quote and the backslash are escaped with a backslash,
the line feed, carriage return and tab by their letter, the other control
characters and `<`, `>`, `&` as `\u00xx`, and the line and paragraph
separators U+2028, U+2029 as `\u2028`, `\u2029` (backspace and form feed are
written `\u0008` and `\u000c`, as Go does up to release 1.21). -/
def encodeString (s : Str) : Str :=
  '"' :: (s.flatMap fun c =>
    if c = '\\' ∨ c = '"' then ['\\', c]
    else if c = '\n' then ['\\', 'n']
    else if c = '\r' then ['\\', 'r']
    else if c = '\t' then ['\\', 't']
    else if c.toNat < 32 ∨ c = '<' ∨ c = '>' ∨ c = '&' then
      ['\\', 'u', '0', '0', hexDigit (c.toNat / 16), hexDigit (c.toNat % 16)]
    else if c.toNat = 8232 ∨ c.toNat = 8233 then
      ['\\', 'u', '2', '0', '2', hexDigit (c.toNat % 16)]
    else [c]) ++ ['"']

/-! ## `app.go` -/

/-- The constant `BatchSize`: the number of workers. -/
def BatchSize : Nat := 100

/-- The struct `Promotion`. -/
structure Promotion where
  Id : Str
  Price : F64
  ExpirationDate : Str
  deriving DecidableEq, Repr

/-- The call `json.Marshal(promotion)`: `none` is the error return
(`UnsupportedValueError`), which happens exactly for a price that is NaN or
infinite. -/
def Marshal (p : Promotion) : Option Str :=
  match p.Price with
  | .fin neg m e =>
    some ("\x7b\"id\":".toList ++ encodeString p.Id ++ ",\"price\":".toList ++ encodeFloat neg m e
      ++ ",\"expiration_date\":".toList ++ encodeString p.ExpirationDate ++ ['}'])
  | _ => none

/-- The function `parsePromotion`. Both errors (of `strconv.ParseFloat` and of
`time.Parse`) are dropped, so that the zero values stand in: price `0` and the
zero `Time`. The index and slice expressions panic when out of range. -/
def parsePromotion (line : Str) : Result Promotion :=
  let split := Split line ','
  match index split 1 with
  | .panic msg => .panic msg
  | .ok field1 =>
    let float := ParseFloat field1
    let formattedPrice := (Ceil (float.mul (F64.ofNat 100))).div (F64.ofNat 100)
    match index split 2 with
    | .panic msg => .panic msg
    | .ok field2 =>
      match sliceTo field2 (LastIndex field2 ' ') with
      | .panic msg => .panic msg
      | .ok value =>
        let date := (Parse value).getD Time.zero
        match index split 0 with
        | .panic msg => .panic msg
        | .ok field0 => .ok ⟨field0, formattedPrice, date.Format⟩

/-! ## The store: the Redis database behind `redisClient` -/

/-- The key-value store, as the list of its entries (at most one per key).
The store is taken to be reachable: `Set` and `FlushDB` succeed, and `Get`
fails exactly when the key is absent (`redis.Nil`). -/
abbrev Store := List (Str × Str)

/-- The call `redisClient.Get(ctx, key).Result()`; `none` is the error. -/
def Store.Get (s : Store) (key : Str) : Option Str :=
  match s with
  | [] => none
  | (k, v) :: rest => if k = key then some v else Store.Get rest key

/-- The store without the entry of `key`. -/
def Store.remove (s : Store) (key : Str) : Store :=
  match s with
  | [] => []
  | (k, v) :: rest => if k = key then Store.remove rest key else (k, v) :: Store.remove rest key

/-- The call `redisClient.Set(ctx, key, value, -1)`: the value replaces the
one the key had. -/
def Store.Set (s : Store) (key value : Str) : Store := (key, value) :: s.remove key

/-- The call `redisClient.FlushDB(ctx)`. -/
def Store.FlushDB (_ : Store) : Store := []

/-! ## package `fmt`: `fmt.Fprintf(w, format)` without operands -/

/-- The function `parsenum` of package fmt on the characters up to `end`: the
number read (if any digit was read) and the rest; a number that grows beyond
`1e6` makes it give up and skip to `end`. -/
def parsenum : Str → Nat → Bool → Option Nat × Str
  | [], num, isnum => (if isnum then some num else none, [])
  | c :: cs, num, isnum =>
    if isDigit c then
      if 1000000 < num then (none, []) else parsenum cs (num * 10 + digitVal c) true
    else (if isnum then some num else none, c :: cs)

/-- The function `parseArgNumber` of package fmt on a format that starts with
`[`: the number of characters it takes, and whether it is `[n]`. -/
def parseArgNumber (format : Str) : Nat × Bool :=
  if format.length < 3 then (1, false)
  else
    match (format.drop 1).indexOf? ']' with
    | none => (1, false)
    | some j =>
      -- the closing bracket is at index `j + 1`
      match parsenum ((format.drop 1).take j) 0 false with
      | (some _, []) => (j + 2, true)
      | _ => (j + 2, false)

/-- The method `argNumber` of package fmt when there is no operand: an index
`[n]` is skipped and is always out of range. Returns the rest of the format,
whether an index was found, and whether it was well-formed. -/
def argNumber (format : Str) : Str × Bool × Bool :=
  match format with
  | '[' :: _ =>
    let r := parseArgNumber format
    (format.drop r.1, true, r.2)
  | _ => (format, false, false)

/-- One verb of `doPrintf`, after the `%`, without operands: the text it
writes and the rest of the format. `good` is `p.goodArgNum`. -/
def printVerb (format : Str) : Str × Str :=
  -- flags
  let f1 := format.dropWhile (fun c => c = '#' ∨ c = '0' ∨ c = '+' ∨ c = '-' ∨ c = ' ')
  -- explicit argument index
  let (f2, found1, afterIndex1) := argNumber f1
  let good1 := !found1
  -- width
  let (out3, f3, afterIndex3, good3) : Str × Str × Bool × Bool :=
    match f2 with
    | '*' :: rest => ("%!(BADWIDTH)".toList, rest, false, good1)
    | _ =>
      let r := parsenum f2 0 false
      ([], r.2, afterIndex1, good1 && !(afterIndex1 && r.1.isSome))
  -- precision
  let (out4, f4, afterIndex4, good4) : Str × Str × Bool × Bool :=
    match f3 with
    | '.' :: rest =>
      let goodA := good3 && !afterIndex3
      let (g, found, after) := argNumber rest
      let goodB := goodA && !found
      match g with
      | '*' :: rest2 => ("%!(BADPREC)".toList, rest2, false, goodB)
      | _ => ([], (parsenum g 0 false).2, after, goodB)
    | _ => ([], f3, afterIndex3, good3)
  let (f5, good5) : Str × Bool :=
    if !afterIndex4 then
      let (g, found, _) := argNumber f4
      (g, good4 && !found)
    else (f4, good4)
  match f5 with
  | [] => (out3 ++ out4 ++ "%!(NOVERB)".toList, [])
  | verb :: rest =>
    if verb = '%' then (out3 ++ out4 ++ ['%'], rest)
    else if !good5 then (out3 ++ out4 ++ "%!".toList ++ verb :: "(BADINDEX)".toList, rest)
    else (out3 ++ out4 ++ "%!".toList ++ verb :: "(MISSING)".toList, rest)

/-- The loop of `doPrintf` without operands; every iteration takes at least
one character of the format, which `fuel` bounds. -/
def doPrintf : Nat → Str → Str
  | 0, _ => []
  | _ + 1, [] => []
  | fuel + 1, c :: cs =>
    if c = '%' then
      let r := printVerb cs
      r.1 ++ doPrintf fuel r.2
    else c :: doPrintf fuel cs

/-- What `fmt.Fprintf(w, format)` writes to `w`: the text of `format` with its
`%` verbs expanded, there being no operand for them. -/
def Fprintf (format : Str) : Str := doPrintf (format.length + 1) format

/-! ## The workers: `storePromotions` and `createChannels` -/

/-- One iteration of the loop of `storePromotions` on the line received:
parse, serialise, and write the record under its id. A record that does not
serialise is logged and not written. A panic of `parsePromotion` is not
recovered: it ends the process. -/
def storePromotions (store : Store) (line : Str) : Result Store :=
  match parsePromotion line with
  | .panic msg => .panic msg
  | .ok promotion =>
    match Marshal promotion with
    | none => .ok store
    | some serializedPromotion => .ok (store.Set promotion.Id serializedPromotion)

/-- The worker pool while the file is streamed: `lines` are the lines the
producer goroutine has still to send on the channel, and `workers` holds, for
each goroutine of `storePromotions`, the line it has received and not yet
processed. -/
structure Pool where
  lines : List Str
  workers : List (Option Str)
  deriving DecidableEq, Repr

/-- The function `createChannels` for a pool of `batchSize` workers (the
constant `BatchSize` in the source), all waiting for a line, with the lines of
the file to be sent to them. -/
def createChannels (batchSize : Nat) (lines : List Str) : Pool :=
  ⟨lines, List.replicate batchSize none⟩

/-- The workers have drained the channel and have all finished, which is when
`waitForWorkers` returns. -/
def Pool.finished (p : Pool) : Bool := p.lines.isEmpty && p.workers.all Option.isNone

/-- A scheduling decision: which goroutine takes its next step. -/
inductive Action where
  /-- the rebuild job executes its next statement -/
  | job
  /-- worker `w` receives the next line from the channel -/
  | recv (w : Nat)
  /-- worker `w` parses and stores the line it holds -/
  | work (w : Nat)
  /-- the lookup handler executes its next statement -/
  | reader
  deriving DecidableEq, Repr

/-- A step of the worker pool on the store; `none` when the action is not
enabled. The channel is unbuffered, so the lines are received in file order,
each by any worker that is waiting. -/
def Pool.step (store : Store) (p : Pool) : Action → Option (Result (Store × Pool))
  | .recv w =>
    match p.lines, p.workers[w]? with
    | line :: rest, some none => some (.ok (store, ⟨rest, p.workers.set w (some line)⟩))
    | _, _ => none
  | .work w =>
    match p.workers[w]? with
    | some (some line) =>
      match storePromotions store line with
      | .ok store1 => some (.ok (store1, ⟨p.lines, p.workers.set w none⟩))
      | .panic msg => some (.panic msg)
    | _ => none
  | _ => none

/-- A run of the worker pool under a schedule; `none` when the schedule asks
for a step that is not enabled. -/
def Pool.run (store : Store) (p : Pool) : List Action → Option (Result (Store × Pool))
  | [] => some (.ok (store, p))
  | a :: as =>
    match Pool.step store p a with
    | some (.ok (store1, p1)) => Pool.run store1 p1 as
    | some (.panic msg) => some (.panic msg)
    | none => none

/-! ## The rebuild job of `scheduleDataImport` and `retrievePromotion` -/

/-- The shared state: the store, the flag `syncInProgress`, and `mutex` (held
for writing, and the number of read locks held). -/
structure Sys where
  store : Store
  syncInProgress : Bool
  writer : Bool
  readers : Nat
  deriving DecidableEq, Repr

/-- Where the rebuild job (the function passed to `Do`) stands: before each of
its statements, while its workers run, or crashed by a panic. -/
inductive JobPc where
  | lock
  | flush
  | setFlag
  | unlock
  | openFile
  | workers (pool : Pool)
  | clearFlag
  | done
  | crashed (msg : String)
  deriving DecidableEq, Repr

/-- The HTTP response of `retrievePromotion`. -/
structure Response where
  status : Nat
  body : Str
  deriving DecidableEq, Repr

/-- Where `retrievePromotion` stands: before `RLock`, at the loop condition,
at the `Get` inside the loop, before `RUnlock`, at the final `Get`, or done. -/
inductive ReadPc where
  | rlock
  | test
  | spin
  | runlock
  | get
  | done (resp : Response)
  deriving DecidableEq, Repr

/-- A step of the rebuild job, statement by statement: `mutex.Lock()` (enabled
when the mutex is free), `FlushDB`, `syncInProgress = true`, `mutex.Unlock()`,
`openFile()`, the steps of the workers until `waitForWorkers` returns, and
`syncInProgress = false`. `file` is the result of `openFile`: the lines the
scanner yields (a read error ends them early), or `none` when the file cannot
be opened. -/
def jobStep (batchSize : Nat) (file : Option (List Str)) (sys : Sys) (pc : JobPc)
    (a : Action) : Option (Sys × JobPc) :=
  match pc, a with
  | .lock, .job =>
    if sys.writer ∨ sys.readers ≠ 0 then none else some ({ sys with writer := true }, .flush)
  | .flush, .job => some ({ sys with store := sys.store.FlushDB }, .setFlag)
  | .setFlag, .job => some ({ sys with syncInProgress := true }, .unlock)
  | .unlock, .job => some ({ sys with writer := false }, .openFile)
  | .openFile, .job =>
    match file with
    | none => some (sys, .clearFlag)
    | some lines => some (sys, .workers (createChannels batchSize lines))
  | .workers pool, .job => if pool.finished then some (sys, .clearFlag) else none
  | .workers pool, a =>
    match Pool.step sys.store pool a with
    | some (.ok (store1, pool1)) => some ({ sys with store := store1 }, .workers pool1)
    | some (.panic msg) => some (sys, .crashed msg)
    | none => none
  | .clearFlag, .job => some ({ sys with syncInProgress := false }, .done)
  | _, _ => none

/-- A step of `retrievePromotion` for the id `key`. -/
def readStep (key : Str) (sys : Sys) (pc : ReadPc) : Option (Sys × ReadPc) :=
  match pc with
  | .rlock => if sys.writer then none else some ({ sys with readers := sys.readers + 1 }, .test)
  | .test => some (sys, if sys.syncInProgress then .spin else .runlock)
  | .spin =>
    match sys.store.Get key with
    | none => some (sys, .test)
    | some _ => some (sys, .runlock)
  | .runlock => some ({ sys with readers := sys.readers - 1 }, .get)
  | .get =>
    match sys.store.Get key with
    | none => some (sys, .done ⟨404, Fprintf "Promotion is not found!!!".toList⟩)
    | some get => some (sys, .done ⟨200, Fprintf get⟩)
  | .done _ => none

/-- The process: the shared state, the rebuild job and one lookup. -/
structure Config where
  sys : Sys
  job : JobPc
  reader : ReadPc
  deriving DecidableEq, Repr

/-- A step of the process under the scheduling decision `a`; none is enabled
once a panic has ended the process. -/
def step (batchSize : Nat) (file : Option (List Str)) (key : Str) (c : Config) (a : Action) :
    Option Config :=
  match c.job with
  | .crashed _ => none
  | _ =>
    match a with
    | .reader => (readStep key c.sys c.reader).map fun r => ⟨r.1, c.job, r.2⟩
    | a => (jobStep batchSize file c.sys c.job a).map fun r => ⟨r.1, r.2, c.reader⟩

/-- A run of the process under a schedule; `none` when the schedule asks for a
step that is not enabled. -/
def run (batchSize : Nat) (file : Option (List Str)) (key : Str) :
    Config → List Action → Option Config
  | c, [] => some c
  | c, a :: as =>
    match step batchSize file key c a with
    | some c1 => run batchSize file key c1 as
    | none => none

/-- The handler `retrievePromotion` run on its own from the state `sys`, for
at most `fuel` steps: its response, or `none` when it is still blocked or
spinning. -/
def retrievePromotion (key : Str) (sys : Sys) : Nat → ReadPc → Option Response
  | _, .done resp => some resp
  | 0, _ => none
  | fuel + 1, pc =>
    match readStep key sys pc with
    | some (sys1, pc1) => retrievePromotion key sys1 fuel pc1
    | none => none

/-- The id of a source line: its first comma-separated field. -/
def lineId (line : Str) : Str := (Split line ',').headD []

/-- The line `l` makes a worker write the key `k`: its record serialises and
has the id `k`. -/
def writes (l : Str) (k : Str) : Prop :=
  ∃ p, parsePromotion l = .ok p ∧ p.Id = k ∧ (Marshal p).isSome = true

/-- The lines that are still to be processed by the pool: those not yet sent,
and those a worker holds. -/
def Pool.pending (p : Pool) (l : Str) : Prop := l ∈ p.lines ∨ some l ∈ p.workers

/-- What a key needs to end up in the store: it is there, or a line still to
be processed writes it. -/
def Pool.reach (store : Store) (p : Pool) (k : Str) : Prop :=
  (store.Get k).isSome = true ∨ ∃ l, p.pending l ∧ writes l k

/-- The schedule in which the first worker takes every line in turn. -/
def firstWorkerSchedule : List Str → List Action
  | [] => []
  | _ :: rest => .recv 0 :: .work 0 :: firstWorkerSchedule rest

/-- Whether the code ran without a panic. -/
def Result.isOk {α : Type} : Result α → Bool
  | .ok _ => true
  | .panic _ => false

/-- The invariant of the rebuild job over the lines `lines` of the file: from
the flush on, every key of the store is the id of a line; the workers hold
lines of the file only; the mutex is free again after `Unlock`, and the flag
is clear at the end. -/
def JobInv (lines : List Str) (c : Config) : Prop :=
  match c.job with
  | .lock => True
  | .flush => True
  | .setFlag => ∀ k, (c.sys.store.Get k).isSome = true → k ∈ lines.map lineId
  | .unlock => ∀ k, (c.sys.store.Get k).isSome = true → k ∈ lines.map lineId
  | .openFile =>
    c.sys.writer = false ∧ ∀ k, (c.sys.store.Get k).isSome = true → k ∈ lines.map lineId
  | .workers pool =>
    c.sys.writer = false ∧ (∀ k, (c.sys.store.Get k).isSome = true → k ∈ lines.map lineId)
      ∧ ∀ l, pool.pending l → l ∈ lines
  | .clearFlag =>
    c.sys.writer = false ∧ ∀ k, (c.sys.store.Get k).isSome = true → k ∈ lines.map lineId
  | .done =>
    c.sys.writer = false ∧ c.sys.syncInProgress = false
      ∧ ∀ k, (c.sys.store.Get k).isSome = true → k ∈ lines.map lineId
  | .crashed _ => True

/-- Whether `strconv.ParseFloat(s, 64)` accepts `s` as a number, i.e. returns
no syntax error. -/
def isNumeric (s : Str) : Bool :=
  match special s with
  | some (_, n) => n = s.length
  | none => (readFloat s).isSome

/-! ## Lemmas on the string functions -/

theorem Split_ne_nil (s : Str) (sep : Char) : Split s sep ≠ [] := by
  induction s with
  | nil => simp [Split]
  | cons c cs ih =>
    unfold Split
    split
    · simp
    · split
      · simp
      · simp

theorem Split_no_sep (a : Str) (sep : Char) (h : sep ∉ a) : Split a sep = [a] := by
  induction a with
  | nil => simp [Split]
  | cons c cs ih =>
    have hc : c ≠ sep := fun e => h (by simp [e])
    have hcs : sep ∉ cs := fun e => h (by simp [e])
    simp [Split, hc, ih hcs]

theorem Split_append_sep (a rest : Str) (sep : Char) (h : sep ∉ a) :
    Split (a ++ sep :: rest) sep = a :: Split rest sep := by
  induction a with
  | nil => simp [Split]
  | cons c cs ih =>
    have hc : c ≠ sep := fun e => h (by simp [e])
    have hcs : sep ∉ cs := fun e => h (by simp [e])
    simp [Split, hc, ih hcs]

theorem LastIndexFrom_not_mem (c : Char) (z : Str) (i : Nat) (acc : Int) (h : c ∉ z) :
    LastIndexFrom c z i acc = acc := by
  induction z generalizing i acc with
  | nil => simp [LastIndexFrom]
  | cons x xs ih =>
    have hx : x ≠ c := fun e => h (by simp [e])
    have hxs : c ∉ xs := fun e => h (by simp [e])
    simp [LastIndexFrom, hx, ih _ _ hxs]

theorem LastIndexFrom_append (c : Char) (a l : Str) (i : Nat) (acc : Int) :
    LastIndexFrom c (a ++ l) i acc = LastIndexFrom c l (i + a.length) (LastIndexFrom c a i acc) := by
  induction a generalizing i acc with
  | nil => simp [LastIndexFrom]
  | cons x xs ih =>
    show LastIndexFrom c (xs ++ l) (i + 1) (if x = c then (i : Int) else acc) = _
    rw [ih]
    simp only [LastIndexFrom, List.length_cons]
    congr 1
    omega

theorem LastIndex_append_sep (a z : Str) (c : Char) (h : c ∉ z) :
    LastIndex (a ++ c :: z) c = (a.length : Int) := by
  unfold LastIndex
  rw [LastIndexFrom_append]
  simp [LastIndexFrom, LastIndexFrom_not_mem c z _ _ h]

theorem sliceTo_append_sep (a z : Str) (c : Char) (h : c ∉ z) :
    sliceTo (a ++ c :: z) (LastIndex (a ++ c :: z) c) = .ok a := by
  rw [LastIndex_append_sep a z c h]
  have h1 : (0 : Int) ≤ (a.length : Int) := Int.ofNat_nonneg _
  have h2 : (a.length : Int) ≤ ((a ++ c :: z).length : Int) := by
    simp only [List.length_append, List.length_cons]; omega
  unfold sliceTo
  rw [if_pos ⟨h1, h2⟩]
  simp

theorem digitChar_isDigit (d : Nat) (h : d < 10) : isDigit (digitChar d) = true := by
  interval_cases d <;> decide

theorem digitVal_digitChar (d : Nat) (h : d < 10) : digitVal (digitChar d) = d := by
  interval_cases d <;> decide

theorem digitChar_ne_comma (d : Nat) (h : d < 10) : digitChar d ≠ ',' := by
  interval_cases d <;> decide

theorem digitChar_ne_space (d : Nat) (h : d < 10) : digitChar d ≠ ' ' := by
  interval_cases d <;> decide

theorem appendInt_two (x : Nat) (h : x < 100) :
    appendInt x 2 = [digitChar (x / 10), digitChar (x % 10)] := by
  simp [appendInt, h]

theorem appendInt_four (x : Nat) (h : x < 10000) :
    appendInt x 4 = [digitChar (x / 100 / 10), digitChar (x / 100 % 10),
      digitChar (x % 100 / 10), digitChar (x % 100 % 10)] := by
  simp [appendInt, h]

theorem cutspace_of_ne (c : Char) (s : Str) (h : c ≠ ' ') : cutspace (c :: s) = c :: s := by
  unfold cutspace
  split
  · rename_i heq
    simp only [List.cons.injEq] at heq
    exact absurd heq.1 h
  · rfl

/-- The layout of `parsePromotion` applied to a date and time followed by
` +NN00`: the digits `NN` are read as the day of the month. -/
theorem Parse_offset_as_day (y mo d h mi s nn : Nat)
    (hy : y < 10000) (hmo1 : 1 ≤ mo) (hmo2 : mo ≤ 12) (hd : d < 100) (hh : h < 24)
    (hmi : mi < 60) (hs : s < 60) (hnn : nn < 100) :
    Parse (Time.Format ⟨y, mo, d, h, mi, s⟩ ++ " +".toList ++ appendInt nn 2 ++ "00".toList)
      = if 1 ≤ nn ∧ nn ≤ daysIn mo y then some ⟨y, mo, nn, h, mi, s⟩ else none := by
  have e1 := digitChar_isDigit (y / 100 / 10) (by omega)
  have e2 := digitChar_isDigit (y / 100 % 10) (by omega)
  have e3 := digitChar_isDigit (y % 100 / 10) (by omega)
  have e4 := digitChar_isDigit (y % 100 % 10) (by omega)
  have e5 := digitChar_isDigit (mo / 10) (by omega)
  have e6 := digitChar_isDigit (mo % 10) (by omega)
  have e7 := digitChar_isDigit (d / 10) (by omega)
  have e8 := digitChar_isDigit (d % 10) (by omega)
  have e9 := digitChar_isDigit (h / 10) (by omega)
  have e10 := digitChar_isDigit (h % 10) (by omega)
  have e11 := digitChar_isDigit (mi / 10) (by omega)
  have e12 := digitChar_isDigit (mi % 10) (by omega)
  have e13 := digitChar_isDigit (s / 10) (by omega)
  have e14 := digitChar_isDigit (s % 10) (by omega)
  have e15 := digitChar_isDigit (nn / 10) (by omega)
  have e16 := digitChar_isDigit (nn % 10) (by omega)
  have v1 := digitVal_digitChar (y / 100 / 10) (by omega)
  have v2 := digitVal_digitChar (y / 100 % 10) (by omega)
  have v3 := digitVal_digitChar (y % 100 / 10) (by omega)
  have v4 := digitVal_digitChar (y % 100 % 10) (by omega)
  have v5 := digitVal_digitChar (mo / 10) (by omega)
  have v6 := digitVal_digitChar (mo % 10) (by omega)
  have v7 := digitVal_digitChar (d / 10) (by omega)
  have v8 := digitVal_digitChar (d % 10) (by omega)
  have v9 := digitVal_digitChar (h / 10) (by omega)
  have v10 := digitVal_digitChar (h % 10) (by omega)
  have v11 := digitVal_digitChar (mi / 10) (by omega)
  have v12 := digitVal_digitChar (mi % 10) (by omega)
  have v13 := digitVal_digitChar (s / 10) (by omega)
  have v14 := digitVal_digitChar (s % 10) (by omega)
  have v15 := digitVal_digitChar (nn / 10) (by omega)
  have v16 := digitVal_digitChar (nn % 10) (by omega)
  have ey : ((y / 100 / 10 * 10 + y / 100 % 10) * 10 + y % 100 / 10) * 10 + y % 100 % 10 = y := by
    omega
  have emo : mo / 10 * 10 + mo % 10 = mo := by omega
  have eh : h / 10 * 10 + h % 10 = h := by omega
  have emi : mi / 10 * 10 + mi % 10 = mi := by omega
  have es : s / 10 * 10 + s % 10 = s := by omega
  have enn : nn / 10 * 10 + nn % 10 = nn := by omega
  have hmo0 : mo ≠ 0 := by omega
  have hmo12 : ¬ 12 < mo := by omega
  have hh24 : ¬ 24 ≤ h := by omega
  have hmi60 : ¬ 60 ≤ mi := by omega
  have hs60 : ¬ 60 ≤ s := by omega
  have hcut := fun rest => cutspace_of_ne (digitChar (h / 10)) rest
    (digitChar_ne_space (h / 10) (by omega))
  simp only [Time.Format, appendInt_four y hy, appendInt_two mo (by omega), appendInt_two d hd,
    appendInt_two h (by omega), appendInt_two mi (by omega), appendInt_two s (by omega),
    appendInt_two nn hnn, String.toList, List.cons_append, List.nil_append, List.append_assoc]
  simp [Parse, parseChunks, layoutChunks, layoutRest, skip, skipLoop, cutspace, parseElem, getnum,
    commaOrPeriod, e1, e2, e3, e4, e5, e6, e7, e8, e9, e10, e11, e12, e13, e14, e15, e16,
    v1, v2, v3, v4, v5, v6, v7, v8, v9, v10, v11, v12, v13, v14, v15, v16,
    ey, emo, eh, emi, es, enn, hmo0, hmo12, hh24, hmi60, hs60, hcut]
  by_cases hv : 1 ≤ nn ∧ nn ≤ daysIn mo y
  · have hn : ¬ (nn = 0 ∨ daysIn mo y < nn) := by omega
    rw [if_neg hn, if_pos hv]
  · have hn : nn = 0 ∨ daysIn mo y < nn := by omega
    rw [if_pos hn, if_neg hv]

theorem Format_no_comma (t : Time) (hy : t.year < 10000) (hmo : t.month < 100)
    (hd : t.day < 100) (hh : t.hour < 100) (hmi : t.min < 100) (hs : t.sec < 100) :
    ',' ∉ t.Format := by
  have n1 := digitChar_ne_comma (t.year / 100 / 10) (by omega)
  have n2 := digitChar_ne_comma (t.year / 100 % 10) (by omega)
  have n3 := digitChar_ne_comma (t.year % 100 / 10) (by omega)
  have n4 := digitChar_ne_comma (t.year % 100 % 10) (by omega)
  have n5 := digitChar_ne_comma (t.month / 10) (by omega)
  have n6 := digitChar_ne_comma (t.month % 10) (by omega)
  have n7 := digitChar_ne_comma (t.day / 10) (by omega)
  have n8 := digitChar_ne_comma (t.day % 10) (by omega)
  have n9 := digitChar_ne_comma (t.hour / 10) (by omega)
  have n10 := digitChar_ne_comma (t.hour % 10) (by omega)
  have n11 := digitChar_ne_comma (t.min / 10) (by omega)
  have n12 := digitChar_ne_comma (t.min % 10) (by omega)
  have n13 := digitChar_ne_comma (t.sec / 10) (by omega)
  have n14 := digitChar_ne_comma (t.sec % 10) (by omega)
  simp only [Time.Format, appendInt_four _ hy, appendInt_two _ hmo, appendInt_two _ hd,
    appendInt_two _ hh, appendInt_two _ hmi, appendInt_two _ hs, List.cons_append,
    List.nil_append]
  simp [Ne.symm n1, Ne.symm n2, Ne.symm n3, Ne.symm n4, Ne.symm n5, Ne.symm n6, Ne.symm n7,
    Ne.symm n8, Ne.symm n9, Ne.symm n10, Ne.symm n11, Ne.symm n12, Ne.symm n13, Ne.symm n14]

/-- The record `parsePromotion` returns for a line of three fields whose third
field is `value`, a space, and a last token without space. -/
theorem parsePromotion_three_fields (id price value zone : Str)
    (hid : ',' ∉ id) (hprice : ',' ∉ price) (hvalue : ',' ∉ value)
    (hzc : ',' ∉ zone) (hzs : ' ' ∉ zone) :
    parsePromotion (id ++ ',' :: (price ++ ',' :: (value ++ ' ' :: zone)))
      = .ok ⟨id, (Ceil ((ParseFloat price).mul (F64.ofNat 100))).div (F64.ofNat 100),
          ((Parse value).getD Time.zero).Format⟩ := by
  have hts : ',' ∉ value ++ ' ' :: zone := by
    simp only [List.mem_append, List.mem_cons, not_or]
    exact ⟨hvalue, by decide, hzc⟩
  have hsplit : Split (id ++ ',' :: (price ++ ',' :: (value ++ ' ' :: zone))) ','
      = [id, price, value ++ ' ' :: zone] := by
    rw [Split_append_sep _ _ _ hid, Split_append_sep _ _ _ hprice, Split_no_sep _ _ hts]
  unfold parsePromotion
  simp [hsplit, index, sliceTo_append_sep value zone ' ' hzs]

/-! ## Lemmas on the store and the workers -/

theorem Store.Get_remove_ne (s : Store) (key k : Str) (h : key ≠ k) :
    Store.Get (s.remove key) k = Store.Get s k := by
  induction s with
  | nil => rfl
  | cons kv rest ih =>
    obtain ⟨k1, v1⟩ := kv
    by_cases h1 : k1 = key
    · have h2 : k1 ≠ k := fun e => h (h1.symm.trans e)
      simp [Store.remove, h1, Store.Get, ih, h]
    · simp [Store.remove, h1, Store.Get, ih]

theorem Store.Get_Set (s : Store) (key value k : Str) :
    (s.Set key value).Get k = if key = k then some value else s.Get k := by
  unfold Store.Set
  by_cases h : key = k
  · simp [Store.Get, h]
  · simp [Store.Get, h, Store.Get_remove_ne s key k h]

/-- The id of the record is the first field of the line. -/
theorem parsePromotion_Id (line : Str) (p : Promotion) (h : parsePromotion line = .ok p) :
    p.Id = lineId line := by
  unfold parsePromotion at h
  generalize hs : Split line ',' = split at h
  unfold lineId
  rw [hs]
  cases split with
  | nil => simp [index] at h
  | cons a rest =>
    cases rest with
    | nil => simp [index] at h
    | cons b rest2 =>
      cases rest2 with
      | nil => simp [index] at h
      | cons c rest3 =>
        simp only [index, List.getElem?_cons_succ, List.getElem?_cons_zero] at h
        cases hsl : sliceTo c (LastIndex c ' ') with
        | panic msg => simp [hsl] at h
        | ok value =>
          simp only [hsl, Result.ok.injEq] at h
          rw [← h]
          rfl

theorem writes_lineId (l k : Str) (h : writes l k) : k = lineId l := by
  obtain ⟨p, hp, hk, _⟩ := h
  rw [← hk]
  exact parsePromotion_Id l p hp

/-- The keys after one iteration of the worker: those before, and the id of
the line when its record serialises. -/
theorem storePromotions_keys (store store1 : Store) (line : Str)
    (h : storePromotions store line = .ok store1) (k : Str) :
    (store1.Get k).isSome = true ↔ (store.Get k).isSome = true ∨ writes line k := by
  unfold storePromotions at h
  cases hp : parsePromotion line with
  | panic msg => simp [hp] at h
  | ok p =>
    simp only [hp] at h
    cases hm : Marshal p with
    | none =>
      simp only [hm, Result.ok.injEq] at h
      subst h
      constructor
      · intro hk; exact Or.inl hk
      · rintro (hk | ⟨q, hq, _, hq2⟩)
        · exact hk
        · rw [hp] at hq
          cases hq
          simp [hm] at hq2
    | some v =>
      simp only [hm, Result.ok.injEq] at h
      subst h
      rw [Store.Get_Set]
      by_cases hk : p.Id = k
      · simp only [hk, if_true, Option.isSome_some, true_iff]
        exact Or.inr ⟨p, hp, hk, by simp [hm]⟩
      · simp only [hk, if_false]
        constructor
        · intro h1; exact Or.inl h1
        · rintro (h1 | ⟨q, hq, hq1, _⟩)
          · exact h1
          · rw [hp] at hq
            cases hq
            exact absurd hq1 hk

theorem storePromotions_ok_of_parse (store : Store) (line : Str) (p : Promotion)
    (h : parsePromotion line = .ok p) : ∃ store1, storePromotions store line = .ok store1 := by
  unfold storePromotions
  rw [h]
  cases hm : Marshal p with
  | none => exact ⟨store, by simp [hm]⟩
  | some v => exact ⟨store.Set p.Id v, by simp [hm]⟩

/-! ## The worker pool: what a run leaves in the store -/

theorem mem_set_cases {α : Type} (l : List α) (n : Nat) (a b : α) (h : a ∈ l.set n b) :
    a ∈ l ∨ a = b := by
  induction l generalizing n with
  | nil => simp at h
  | cons x xs ih =>
    cases n with
    | zero =>
      simp only [List.set_cons_zero, List.mem_cons] at h
      rcases h with h | h
      · exact Or.inr h
      · exact Or.inl (List.mem_cons_of_mem _ h)
    | succ n =>
      simp only [List.set_cons_succ, List.mem_cons] at h
      rcases h with h | h
      · exact Or.inl (by simp [h])
      · rcases ih n h with h1 | h1
        · exact Or.inl (List.mem_cons_of_mem _ h1)
        · exact Or.inr h1

theorem mem_set_self {α : Type} (l : List α) (n : Nat) (x b : α) (h : l[n]? = some x) :
    b ∈ l.set n b := by
  induction l generalizing n with
  | nil => simp at h
  | cons y ys ih =>
    cases n with
    | zero => simp
    | succ n =>
      simp only [List.getElem?_cons_succ] at h
      simp only [List.set_cons_succ, List.mem_cons]
      exact Or.inr (ih n h)

theorem mem_of_mem_set {α : Type} (l : List α) (n : Nat) (x a b : α) (h : l[n]? = some x)
    (ha : a ∈ l) : a = x ∨ a ∈ l.set n b := by
  induction l generalizing n with
  | nil => simp at h
  | cons y ys ih =>
    cases n with
    | zero =>
      simp only [List.getElem?_cons_zero, Option.some.injEq] at h
      simp only [List.mem_cons] at ha
      rcases ha with ha | ha
      · exact Or.inl (ha.trans h)
      · exact Or.inr (by simp [ha])
    | succ n =>
      simp only [List.getElem?_cons_succ] at h
      simp only [List.mem_cons] at ha
      rcases ha with ha | ha
      · exact Or.inr (by simp [ha])
      · rcases ih n h ha with h1 | h1
        · exact Or.inl h1
        · exact Or.inr (by simp [h1])

/-- A step of the pool neither adds nor loses a key that is stored or still
to be written. -/
theorem Pool.step_reach (store store1 : Store) (p p1 : Pool) (a : Action)
    (h : Pool.step store p a = some (.ok (store1, p1))) (k : Str) :
    Pool.reach store1 p1 k ↔ Pool.reach store p k := by
  cases a with
  | job => simp [Pool.step] at h
  | reader => simp [Pool.step] at h
  | recv w =>
    obtain ⟨lines, workers⟩ := p
    cases lines with
    | nil => simp [Pool.step] at h
    | cons line rest =>
      cases hw : workers[w]? with
      | none => simp [Pool.step, hw] at h
      | some held =>
        cases held with
        | some l0 => simp [Pool.step, hw] at h
        | none =>
          simp only [Pool.step, hw, Option.some.injEq, Result.ok.injEq, Prod.mk.injEq] at h
          obtain ⟨hs, hp⟩ := h
          subst hs hp
          unfold Pool.reach Pool.pending
          constructor
          · rintro (hk | ⟨l, hl, hwr⟩)
            · exact Or.inl hk
            · refine Or.inr ⟨l, ?_, hwr⟩
              rcases hl with hl | hl
              · exact Or.inl (List.mem_cons_of_mem _ hl)
              · rcases mem_set_cases _ _ _ _ hl with h1 | h1
                · exact Or.inr h1
                · simp only [Option.some.injEq] at h1
                  exact Or.inl (by simp [h1])
          · rintro (hk | ⟨l, hl, hwr⟩)
            · exact Or.inl hk
            · refine Or.inr ⟨l, ?_, hwr⟩
              rcases hl with hl | hl
              · simp only [List.mem_cons] at hl
                rcases hl with hl | hl
                · subst hl
                  exact Or.inr (mem_set_self _ _ _ _ hw)
                · exact Or.inl hl
              · rcases mem_of_mem_set _ w _ _ (some line) hw hl with h1 | h1
                · simp at h1
                · exact Or.inr h1
  | work w =>
    obtain ⟨lines, workers⟩ := p
    cases hw : workers[w]? with
    | none => simp [Pool.step, hw] at h
    | some held =>
      cases held with
      | none => simp [Pool.step, hw] at h
      | some line =>
        cases hst : storePromotions store line with
        | panic msg => simp [Pool.step, hw, hst] at h
        | ok store2 =>
          simp only [Pool.step, hw, hst, Option.some.injEq, Result.ok.injEq, Prod.mk.injEq] at h
          obtain ⟨hs, hp⟩ := h
          subst hs hp
          have hkeys := storePromotions_keys store store2 line hst k
          have hheld : some line ∈ workers := List.getElem?_mem hw
          unfold Pool.reach Pool.pending
          constructor
          · rintro (hk | ⟨l, hl, hwr⟩)
            · rcases hkeys.mp hk with h1 | h1
              · exact Or.inl h1
              · exact Or.inr ⟨line, Or.inr hheld, h1⟩
            · refine Or.inr ⟨l, ?_, hwr⟩
              rcases hl with hl | hl
              · exact Or.inl hl
              · rcases mem_set_cases _ _ _ _ hl with h1 | h1
                · exact Or.inr h1
                · simp at h1
          · rintro (hk | ⟨l, hl, hwr⟩)
            · exact Or.inl (hkeys.mpr (Or.inl hk))
            · rcases hl with hl | hl
              · exact Or.inr ⟨l, Or.inl hl, hwr⟩
              · rcases mem_of_mem_set _ w _ _ none hw hl with h1 | h1
                · simp only [Option.some.injEq] at h1
                  subst h1
                  exact Or.inl (hkeys.mpr (Or.inr hwr))
                · exact Or.inr ⟨l, Or.inr h1, hwr⟩

theorem Pool.run_reach (sched : List Action) (store store1 : Store) (p p1 : Pool)
    (h : Pool.run store p sched = some (.ok (store1, p1))) (k : Str) :
    Pool.reach store1 p1 k ↔ Pool.reach store p k := by
  induction sched generalizing store p with
  | nil =>
    simp only [Pool.run, Option.some.injEq, Result.ok.injEq, Prod.mk.injEq] at h
    obtain ⟨hs, hp⟩ := h
    subst hs hp
    rfl
  | cons a as ih =>
    unfold Pool.run at h
    cases hst : Pool.step store p a with
    | none => simp [hst] at h
    | some r =>
      cases r with
      | panic msg => simp [hst] at h
      | ok sp =>
        obtain ⟨s2, p2⟩ := sp
        simp only [hst] at h
        exact (ih s2 p2 h).trans (Pool.step_reach store s2 p p2 a hst k)

theorem Pool.reach_finished (store : Store) (p : Pool) (hf : p.finished = true) (k : Str) :
    Pool.reach store p k ↔ (store.Get k).isSome = true := by
  unfold Pool.finished at hf
  simp only [Bool.and_eq_true, List.isEmpty_iff, List.all_eq_true] at hf
  obtain ⟨hl, hw⟩ := hf
  unfold Pool.reach Pool.pending
  constructor
  · rintro (hk | ⟨l, hl1 | hl1, _⟩)
    · exact hk
    · rw [hl] at hl1; simp at hl1
    · have := hw _ hl1; simp at this
  · intro hk; exact Or.inl hk

theorem Pool.reach_createChannels (store : Store) (batchSize : Nat) (lines : List Str) (k : Str) :
    Pool.reach store (createChannels batchSize lines) k
      ↔ (store.Get k).isSome = true ∨ ∃ l ∈ lines, writes l k := by
  unfold Pool.reach Pool.pending createChannels
  constructor
  · rintro (hk | ⟨l, hl | hl, hwr⟩)
    · exact Or.inl hk
    · exact Or.inr ⟨l, hl, hwr⟩
    · simp [List.mem_replicate] at hl
  · rintro (hk | ⟨l, hl, hwr⟩)
    · exact Or.inl hk
    · exact Or.inr ⟨l, Or.inl hl, hwr⟩

/-- The keys a finished run of a pool of any size leaves in the store: the
keys the store had, and the ids of the lines whose record serialises. -/
theorem Pool.run_keys (batchSize : Nat) (lines : List Str) (sched : List Action)
    (store store1 : Store) (p1 : Pool)
    (h : Pool.run store (createChannels batchSize lines) sched = some (.ok (store1, p1)))
    (hf : p1.finished = true) (k : Str) :
    (store1.Get k).isSome = true ↔ (store.Get k).isSome = true ∨ ∃ l ∈ lines, writes l k := by
  rw [← Pool.reach_finished store1 p1 hf k, Pool.run_reach sched store store1 _ p1 h k,
    Pool.reach_createChannels]

theorem Result.isOk_iff {α : Type} {r : Result α} : r.isOk = true ↔ ∃ a, r = .ok a := by
  cases r with
  | ok a => simp [Result.isOk]
  | panic msg => simp [Result.isOk]

/-- A pool with at least one worker finishes on lines that parse. -/
theorem Pool.run_firstWorker (lines : List Str) (ws : List (Option Str)) (store : Store)
    (hwf : ∀ l ∈ lines, (parsePromotion l).isOk = true) :
    ∃ store1, Pool.run store ⟨lines, none :: ws⟩ (firstWorkerSchedule lines)
      = some (.ok (store1, ⟨[], none :: ws⟩)) := by
  induction lines generalizing store with
  | nil => exact ⟨store, rfl⟩
  | cons l rest ih =>
    obtain ⟨p, hp⟩ := Result.isOk_iff.mp (hwf l (by simp))
    obtain ⟨s2, hs2⟩ := storePromotions_ok_of_parse store l p hp
    obtain ⟨s3, hs3⟩ := ih s2 (fun l1 h1 => hwf l1 (List.mem_cons_of_mem _ h1))
    refine ⟨s3, ?_⟩
    simp only [firstWorkerSchedule, Pool.run, Pool.step, List.getElem?_cons_zero, List.set, hs2]
    exact hs3

/-! ## The rebuild job: its invariant -/

theorem Pool.step_pending (store store1 : Store) (p p1 : Pool) (a : Action)
    (h : Pool.step store p a = some (.ok (store1, p1))) (l : Str) (hl : p1.pending l) :
    p.pending l := by
  cases a with
  | job => simp [Pool.step] at h
  | reader => simp [Pool.step] at h
  | recv w =>
    obtain ⟨lines, workers⟩ := p
    cases lines with
    | nil => simp [Pool.step] at h
    | cons line rest =>
      cases hw : workers[w]? with
      | none => simp [Pool.step, hw] at h
      | some held =>
        cases held with
        | some l0 => simp [Pool.step, hw] at h
        | none =>
          simp only [Pool.step, hw, Option.some.injEq, Result.ok.injEq, Prod.mk.injEq] at h
          obtain ⟨_, hp⟩ := h
          subst hp
          unfold Pool.pending at hl ⊢
          rcases hl with hl | hl
          · exact Or.inl (List.mem_cons_of_mem _ hl)
          · rcases mem_set_cases _ _ _ _ hl with h1 | h1
            · exact Or.inr h1
            · simp only [Option.some.injEq] at h1
              exact Or.inl (by simp [h1])
  | work w =>
    obtain ⟨lines, workers⟩ := p
    cases hw : workers[w]? with
    | none => simp [Pool.step, hw] at h
    | some held =>
      cases held with
      | none => simp [Pool.step, hw] at h
      | some line =>
        cases hst : storePromotions store line with
        | panic msg => simp [Pool.step, hw, hst] at h
        | ok store2 =>
          simp only [Pool.step, hw, hst, Option.some.injEq, Result.ok.injEq, Prod.mk.injEq] at h
          obtain ⟨_, hp⟩ := h
          subst hp
          unfold Pool.pending at hl ⊢
          rcases hl with hl | hl
          · exact Or.inl hl
          · rcases mem_set_cases _ _ _ _ hl with h1 | h1
            · exact Or.inr h1
            · simp at h1

theorem readStep_sys (key : Str) (sys sys1 : Sys) (pc pc1 : ReadPc)
    (h : readStep key sys pc = some (sys1, pc1)) :
    sys1.store = sys.store ∧ sys1.writer = sys.writer
      ∧ sys1.syncInProgress = sys.syncInProgress := by
  cases pc with
  | rlock =>
    simp only [readStep] at h
    split at h
    · cases h
    · cases h; exact ⟨rfl, rfl, rfl⟩
  | test =>
    simp only [readStep] at h
    cases h; exact ⟨rfl, rfl, rfl⟩
  | spin =>
    simp only [readStep] at h
    split at h <;> (cases h; exact ⟨rfl, rfl, rfl⟩)
  | runlock =>
    simp only [readStep] at h
    cases h; exact ⟨rfl, rfl, rfl⟩
  | get =>
    simp only [readStep] at h
    split at h <;> (cases h; exact ⟨rfl, rfl, rfl⟩)
  | done r => simp [readStep] at h

theorem JobInv_reader (lines : List Str) (sys sys1 : Sys) (job : JobPc) (r r1 : ReadPc)
    (hs : sys1.store = sys.store) (hw : sys1.writer = sys.writer)
    (hf : sys1.syncInProgress = sys.syncInProgress) (h : JobInv lines ⟨sys, job, r⟩) :
    JobInv lines ⟨sys1, job, r1⟩ := by
  unfold JobInv at h ⊢
  cases job <;> simp only [hs, hw, hf] at h ⊢ <;> exact h

theorem JobInv_pool (file : Option (List Str)) (sys sys1 : Sys)
    (pool : Pool) (job1 : JobPc) (r : ReadPc) (a : Action)
    (hstep : (match Pool.step sys.store pool a with
        | some (.ok (store1, pool1)) => some ({ sys with store := store1 }, JobPc.workers pool1)
        | some (.panic msg) => some (sys, JobPc.crashed msg)
        | none => none) = some (sys1, job1))
    (h : JobInv (file.getD []) ⟨sys, .workers pool, r⟩) :
    JobInv (file.getD []) ⟨sys1, job1, r⟩ := by
  obtain ⟨hw, hkeys, hpend⟩ := h
  cases hps : Pool.step sys.store pool a with
  | none => simp [hps] at hstep
  | some res =>
    cases res with
    | panic msg =>
      simp only [hps] at hstep
      cases hstep
      trivial
    | ok sp =>
      obtain ⟨store1, pool1⟩ := sp
      simp only [hps] at hstep
      cases hstep
      refine ⟨hw, ?_, ?_⟩
      · intro k hk
        have hr : Pool.reach store1 pool1 k := Or.inl hk
        rcases (Pool.step_reach sys.store store1 pool pool1 a hps k).mp hr with h3 | h3
        · exact hkeys k h3
        · obtain ⟨l, hl, hwr⟩ := h3
          rw [writes_lineId l k hwr]
          exact List.mem_map_of_mem _ (hpend l hl)
      · intro l hl
        exact hpend l (Pool.step_pending sys.store store1 pool pool1 a hps l hl)

theorem JobInv_jobStep (batchSize : Nat) (file : Option (List Str)) (sys sys1 : Sys)
    (job job1 : JobPc) (r : ReadPc) (a : Action)
    (hstep : jobStep batchSize file sys job a = some (sys1, job1))
    (h : JobInv (file.getD []) ⟨sys, job, r⟩) : JobInv (file.getD []) ⟨sys1, job1, r⟩ := by
  cases job with
  | lock =>
    cases a with
    | job =>
      simp only [jobStep] at hstep
      split at hstep
      · cases hstep
      · cases hstep; trivial
    | recv w => simp [jobStep] at hstep
    | work w => simp [jobStep] at hstep
    | reader => simp [jobStep] at hstep
  | flush =>
    cases a with
    | job =>
      simp only [jobStep] at hstep
      cases hstep
      intro k hk
      simp [Store.FlushDB, Store.Get] at hk
    | recv w => simp [jobStep] at hstep
    | work w => simp [jobStep] at hstep
    | reader => simp [jobStep] at hstep
  | setFlag =>
    cases a with
    | job =>
      simp only [jobStep] at hstep
      cases hstep
      exact h
    | recv w => simp [jobStep] at hstep
    | work w => simp [jobStep] at hstep
    | reader => simp [jobStep] at hstep
  | unlock =>
    cases a with
    | job =>
      simp only [jobStep] at hstep
      cases hstep
      exact ⟨rfl, h⟩
    | recv w => simp [jobStep] at hstep
    | work w => simp [jobStep] at hstep
    | reader => simp [jobStep] at hstep
  | openFile =>
    cases a with
    | job =>
      simp only [jobStep] at hstep
      cases file with
      | none =>
        simp only at hstep
        cases hstep
        exact h
      | some lines =>
        simp only at hstep
        cases hstep
        refine ⟨h.1, h.2, ?_⟩
        intro l hl
        unfold Pool.pending createChannels at hl
        rcases hl with hl | hl
        · exact hl
        · simp [List.mem_replicate] at hl
    | recv w => simp [jobStep] at hstep
    | work w => simp [jobStep] at hstep
    | reader => simp [jobStep] at hstep
  | workers pool =>
    cases a with
    | job =>
      simp only [jobStep] at hstep
      split at hstep
      · cases hstep
        exact ⟨h.1, h.2.1⟩
      · cases hstep
    | recv w =>
      simp only [jobStep] at hstep
      exact JobInv_pool file sys sys1 pool job1 r (.recv w) hstep h
    | work w =>
      simp only [jobStep] at hstep
      exact JobInv_pool file sys sys1 pool job1 r (.work w) hstep h
    | reader =>
      simp only [jobStep] at hstep
      exact JobInv_pool file sys sys1 pool job1 r .reader hstep h
  | clearFlag =>
    cases a with
    | job =>
      simp only [jobStep] at hstep
      cases hstep
      exact ⟨h.1, rfl, h.2⟩
    | recv w => simp [jobStep] at hstep
    | work w => simp [jobStep] at hstep
    | reader => simp [jobStep] at hstep
  | done => cases a <;> simp [jobStep] at hstep
  | crashed msg => cases a <;> simp [jobStep] at hstep

theorem JobInv_step_reader (lines : List Str) (key : Str) (sys : Sys) (job : JobPc)
    (r : ReadPc) (c1 : Config)
    (hstep : (readStep key sys r).map (fun p => Config.mk p.1 job p.2) = some c1)
    (h : JobInv lines ⟨sys, job, r⟩) : JobInv lines c1 := by
  cases hr : readStep key sys r with
  | none => simp [hr] at hstep
  | some sp =>
    obtain ⟨sys1, pc1⟩ := sp
    simp only [hr, Option.map_some', Option.some.injEq] at hstep
    subst hstep
    obtain ⟨e1, e2, e3⟩ := readStep_sys key sys sys1 r pc1 hr
    exact JobInv_reader _ sys sys1 job r pc1 e1 e2 e3 h

theorem JobInv_step_job (batchSize : Nat) (file : Option (List Str)) (sys : Sys) (job : JobPc)
    (r : ReadPc) (a : Action) (c1 : Config)
    (hstep : (jobStep batchSize file sys job a).map (fun p => Config.mk p.1 p.2 r) = some c1)
    (h : JobInv (file.getD []) ⟨sys, job, r⟩) : JobInv (file.getD []) c1 := by
  cases hj : jobStep batchSize file sys job a with
  | none => simp [hj] at hstep
  | some sp =>
    obtain ⟨sys1, pc1⟩ := sp
    simp only [hj, Option.map_some', Option.some.injEq] at hstep
    subst hstep
    exact JobInv_jobStep batchSize file sys sys1 job pc1 r a hj h

theorem JobInv_step (batchSize : Nat) (file : Option (List Str)) (key : Str) (c c1 : Config)
    (a : Action) (hstep : step batchSize file key c a = some c1)
    (h : JobInv (file.getD []) c) : JobInv (file.getD []) c1 := by
  obtain ⟨sys, job, r⟩ := c
  cases a with
  | reader =>
    have hr : (readStep key sys r).map (fun p => Config.mk p.1 job p.2) = some c1 := by
      cases job <;> first | exact hstep | cases hstep
    exact JobInv_step_reader _ key sys job r c1 hr h
  | job =>
    have hj : (jobStep batchSize file sys job .job).map (fun p => Config.mk p.1 p.2 r)
        = some c1 := by
      cases job <;> exact hstep
    exact JobInv_step_job batchSize file sys job r _ c1 hj h
  | recv w =>
    have hj : (jobStep batchSize file sys job (.recv w)).map (fun p => Config.mk p.1 p.2 r)
        = some c1 := by
      cases job <;> exact hstep
    exact JobInv_step_job batchSize file sys job r _ c1 hj h
  | work w =>
    have hj : (jobStep batchSize file sys job (.work w)).map (fun p => Config.mk p.1 p.2 r)
        = some c1 := by
      cases job <;> exact hstep
    exact JobInv_step_job batchSize file sys job r _ c1 hj h

theorem JobInv_run (batchSize : Nat) (file : Option (List Str)) (key : Str)
    (sched : List Action) (c c1 : Config) (hrun : run batchSize file key c sched = some c1)
    (h : JobInv (file.getD []) c) : JobInv (file.getD []) c1 := by
  induction sched generalizing c with
  | nil =>
    simp only [run, Option.some.injEq] at hrun
    subst hrun
    exact h
  | cons a as ih =>
    unfold run at hrun
    cases hs : step batchSize file key c a with
    | none => simp [hs] at hrun
    | some c2 =>
      simp only [hs] at hrun
      exact ih c2 hrun (JobInv_step batchSize file key c c2 a hs h)

/-! ## Further facts on the parser and the lookup -/

/-- A date and time without anything after the seconds does not match the
layout of `parsePromotion`, which requires ` +` and two digits there. -/
theorem Parse_without_offset (y mo d h mi s : Nat)
    (hy : y < 10000) (hmo1 : 1 ≤ mo) (hmo2 : mo ≤ 12) (hd : d < 100) (hh : h < 24)
    (hmi : mi < 60) (hs : s < 60) :
    Parse (Time.Format ⟨y, mo, d, h, mi, s⟩) = none := by
  have e1 := digitChar_isDigit (y / 100 / 10) (by omega)
  have e2 := digitChar_isDigit (y / 100 % 10) (by omega)
  have e3 := digitChar_isDigit (y % 100 / 10) (by omega)
  have e4 := digitChar_isDigit (y % 100 % 10) (by omega)
  have e5 := digitChar_isDigit (mo / 10) (by omega)
  have e6 := digitChar_isDigit (mo % 10) (by omega)
  have e7 := digitChar_isDigit (d / 10) (by omega)
  have e8 := digitChar_isDigit (d % 10) (by omega)
  have e9 := digitChar_isDigit (h / 10) (by omega)
  have e10 := digitChar_isDigit (h % 10) (by omega)
  have e11 := digitChar_isDigit (mi / 10) (by omega)
  have e12 := digitChar_isDigit (mi % 10) (by omega)
  have e13 := digitChar_isDigit (s / 10) (by omega)
  have e14 := digitChar_isDigit (s % 10) (by omega)
  have v1 := digitVal_digitChar (y / 100 / 10) (by omega)
  have v2 := digitVal_digitChar (y / 100 % 10) (by omega)
  have v3 := digitVal_digitChar (y % 100 / 10) (by omega)
  have v4 := digitVal_digitChar (y % 100 % 10) (by omega)
  have v5 := digitVal_digitChar (mo / 10) (by omega)
  have v6 := digitVal_digitChar (mo % 10) (by omega)
  have v7 := digitVal_digitChar (d / 10) (by omega)
  have v8 := digitVal_digitChar (d % 10) (by omega)
  have v9 := digitVal_digitChar (h / 10) (by omega)
  have v10 := digitVal_digitChar (h % 10) (by omega)
  have v11 := digitVal_digitChar (mi / 10) (by omega)
  have v12 := digitVal_digitChar (mi % 10) (by omega)
  have v13 := digitVal_digitChar (s / 10) (by omega)
  have v14 := digitVal_digitChar (s % 10) (by omega)
  have emo : mo / 10 * 10 + mo % 10 = mo := by omega
  have eh : h / 10 * 10 + h % 10 = h := by omega
  have emi : mi / 10 * 10 + mi % 10 = mi := by omega
  have es : s / 10 * 10 + s % 10 = s := by omega
  have hmo0 : mo ≠ 0 := by omega
  have hmo12 : ¬ 12 < mo := by omega
  have hh24 : ¬ 24 ≤ h := by omega
  have hmi60 : ¬ 60 ≤ mi := by omega
  have hs60 : ¬ 60 ≤ s := by omega
  have hcut := fun rest => cutspace_of_ne (digitChar (h / 10)) rest
    (digitChar_ne_space (h / 10) (by omega))
  simp only [Time.Format, appendInt_four y hy, appendInt_two mo (by omega), appendInt_two d hd,
    appendInt_two h (by omega), appendInt_two mi (by omega), appendInt_two s (by omega),
    List.cons_append, List.nil_append]
  simp [Parse, parseChunks, layoutChunks, skip, skipLoop, cutspace, parseElem, getnum,
    e1, e2, e3, e4, e5, e6, e7, e8, e9, e10, e11, e12, e13, e14,
    v1, v2, v3, v4, v5, v6, v7, v8, v9, v10, v11, v12, v13, v14,
    emo, eh, emi, es, hmo0, hmo12, hh24, hmi60, hs60, hcut]

/-- In general: for every valid date and time
`YYYY-MM-DD HH:MM:SS` followed by a space and an offset token, the expiration
date returned is that of the zero time. -/
theorem parsePromotion_offset_timestamp (id price offset : Str) (y mo d h mi s : Nat)
    (hid : ',' ∉ id) (hprice : ',' ∉ price) (hoc : ',' ∉ offset) (hos : ' ' ∉ offset)
    (hy : y < 10000) (hmo1 : 1 ≤ mo) (hmo2 : mo ≤ 12) (hd : d < 100) (hh : h < 24)
    (hmi : mi < 60) (hs : s < 60) :
    ∃ p, parsePromotion (id ++ ',' :: (price ++ ',' ::
          (Time.Format ⟨y, mo, d, h, mi, s⟩ ++ ' ' :: offset))) = .ok p
      ∧ p.ExpirationDate = "0001-01-01 00:00:00".toList := by
  have hfmt : ',' ∉ Time.Format ⟨y, mo, d, h, mi, s⟩ :=
    Format_no_comma _ hy (by show mo < 100; omega) hd (by show h < 100; omega)
      (by show mi < 100; omega) (by show s < 100; omega)
  refine ⟨_, parsePromotion_three_fields id price _ offset hid hprice hfmt hoc hos, ?_⟩
  show ((Parse _).getD Time.zero).Format = _
  rw [Parse_without_offset y mo d h mi s hy hmo1 hmo2 hd hh hmi hs]
  decide

/-- In general: every line of fewer than three fields makes
`parsePromotion` panic. -/
theorem parsePromotion_short_line (line : Str) (h : (Split line ',').length < 3) :
    ∃ msg, parsePromotion line = .panic msg := by
  unfold parsePromotion
  generalize Split line ',' = split at h
  match split, h with
  | [], _ => exact ⟨_, rfl⟩
  | [a], _ => exact ⟨_, rfl⟩
  | [a, b], _ => exact ⟨_, rfl⟩
  | _ :: _ :: _ :: _, h => simp at h; omega

theorem doPrintf_no_percent (s : Str) (fuel : Nat) (h : '%' ∉ s) (hf : s.length < fuel) :
    doPrintf fuel s = s := by
  induction s generalizing fuel with
  | nil =>
    cases fuel with
    | zero => rfl
    | succ n => rfl
  | cons c cs ih =>
    cases fuel with
    | zero => simp at hf
    | succ n =>
      have hc : c ≠ '%' := fun e => h (by simp [e])
      have hcs : '%' ∉ cs := fun e => h (by simp [e])
      simp only [doPrintf, hc, if_false]
      rw [ih n hcs (by simpa using hf)]

/-- With no rebuild active and the mutex free, the lookup
answers 404 for an absent key, and the stored string itself when it has no
`%` in it. -/
theorem retrievePromotion_pass_through (key : Str) (sys : Sys)
    (hflag : sys.syncInProgress = false) (hw : sys.writer = false) :
    (sys.store.Get key = none →
      retrievePromotion key sys 4 .rlock = some ⟨404, "Promotion is not found!!!".toList⟩)
    ∧ ∀ v, sys.store.Get key = some v → '%' ∉ v →
      retrievePromotion key sys 4 .rlock = some ⟨200, v⟩ := by
  constructor
  · intro hget
    simp only [retrievePromotion, readStep, hw, hflag, hget, Bool.false_eq_true, if_false]
    decide
  · intro v hget hv
    simp only [retrievePromotion, readStep, hw, hflag, hget, Bool.false_eq_true, if_false]
    unfold Fprintf
    rw [doPrintf_no_percent v _ hv (by omega)]

theorem ParseFloat_not_numeric (s : Str) (h : isNumeric s = false) :
    ParseFloat s = .fin false 0 (-1074) := by
  unfold isNumeric at h
  unfold ParseFloat
  cases hs : special s with
  | some vn =>
    obtain ⟨v, n⟩ := vn
    simp only [hs, decide_eq_false_iff_not] at h
    simp [h]
  | none =>
    simp only [hs] at h
    cases hr : readFloat s with
    | none => rfl
    | some lit => simp [hr] at h

theorem price_1_001 :
    (Ceil ((ParseFloat "1.001".toList).mul (F64.ofNat 100))).div (F64.ofNat 100)
      = ParseFloat "1.01".toList := by
  decide!

theorem price_2_00 :
    (Ceil ((ParseFloat "2.00".toList).mul (F64.ofNat 100))).div (F64.ofNat 100)
      = ParseFloat "2.00".toList := by
  decide!

theorem price_1_1 :
    (Ceil ((ParseFloat "1.1".toList).mul (F64.ofNat 100))).div (F64.ofNat 100)
      = ParseFloat "1.11".toList := by
  decide!

/-! ## The claims -/

/-- C1 (the code departs from the claim): for the timestamp
`2024-05-01 10:00:00 +0200` the offset token is cut off, but what remains is
then parsed against a layout that still requires ` +` and digits after the
seconds; the parse fails, its error is dropped, and the expiration date is
that of the zero time, not `2024-05-01 10:00:00`. -/
theorem C1_offset_timestamp_gives_zero_date :
    parsePromotion "x,1,2024-05-01 10:00:00 +0200".toList
      = .ok ⟨"x".toList, F64.ofNat 1, "0001-01-01 00:00:00".toList⟩ := by
  decide!

/-- C2 (counterexample): the price `1.1` has one fractional digit, and the
record returned carries `1.11`, which the worker stores: the `float64` product
`1.1 * 100` is `110.00000000000001`, whose ceiling is `111`. -/
theorem C2_counterexample :
    parsePromotion "p,1.1,2018-08-04 05:32:31 +0200 CEST".toList
      = .ok ⟨"p".toList, ParseFloat "1.11".toList, "2018-08-02 05:32:31".toList⟩
    ∧ ParseFloat "1.11".toList ≠ ParseFloat "1.1".toList
    ∧ storePromotions [] "p,1.1,2018-08-04 05:32:31 +0200 CEST".toList
      = .ok [("p".toList,
          "\x7b\"id\":\"p\",\"price\":1.11,\"expiration_date\":\"2018-08-02 05:32:31\"\x7d".toList)] := by
  decide!

/-- C2, amended: for every line of three fields the price of the record is
`Ceil(f * 100) / 100` evaluated in `float64` arithmetic, `f` being the
`float64` nearest to the price written; `1.001` gives `1.01` and `2.00` is
returned unchanged, whereas `1.1` gives `1.11`. -/
theorem C2_price_is_float64_ceiling (id price value zone : Str)
    (hid : ',' ∉ id) (hprice : ',' ∉ price) (hvalue : ',' ∉ value)
    (hzc : ',' ∉ zone) (hzs : ' ' ∉ zone) :
    ∃ p, parsePromotion (id ++ ',' :: (price ++ ',' :: (value ++ ' ' :: zone))) = .ok p
      ∧ p.Price = (Ceil ((ParseFloat price).mul (F64.ofNat 100))).div (F64.ofNat 100)
      ∧ (price = "1.001".toList → p.Price = ParseFloat "1.01".toList)
      ∧ (price = "2.00".toList → p.Price = ParseFloat "2.00".toList)
      ∧ (price = "1.1".toList → p.Price = ParseFloat "1.11".toList) := by
  refine ⟨_, parsePromotion_three_fields id price value zone hid hprice hvalue hzc hzs, rfl,
    ?_, ?_, ?_⟩
  · intro h
    subst h
    dsimp only
    rw [price_1_001]
  · intro h
    subst h
    dsimp only
    rw [price_2_00]
  · intro h
    subst h
    dsimp only
    rw [price_1_1]

/-- C2, amended, on the line of the claim with the price `1.001`. -/
theorem C2_price_is_float64_ceiling_witness :
    ∃ p, parsePromotion "p,1.001,2018-08-04 05:32:31 +0200 CEST".toList = .ok p
      ∧ p.Price = (Ceil ((ParseFloat "1.001".toList).mul (F64.ofNat 100))).div (F64.ofNat 100)
      ∧ ("1.001".toList = "1.001".toList → p.Price = ParseFloat "1.01".toList)
      ∧ ("1.001".toList = "2.00".toList → p.Price = ParseFloat "2.00".toList)
      ∧ ("1.001".toList = "1.1".toList → p.Price = ParseFloat "1.11".toList) :=
  C2_price_is_float64_ceiling "p".toList "1.001".toList "2018-08-04 05:32:31 +0200".toList
    "CEST".toList (by decide) (by decide) (by decide) (by decide) (by decide)

/-- C3 (the code departs from the claim): on the empty line, and on a line of
two fields, `parsePromotion` panics on an index out of range; in the rebuild
job the panic of the worker ends the process, after which no goroutine takes
a step. -/
theorem C3_short_line_panics :
    parsePromotion [] = .panic "index out of range"
    ∧ parsePromotion "a,1".toList = .panic "index out of range"
    ∧ run BatchSize (some [[]]) [] ⟨⟨[], false, false, 0⟩, .lock, .rlock⟩
        [.job, .job, .job, .job, .job, .recv 0, .work 0]
      = some ⟨⟨[], true, false, 0⟩, .crashed "index out of range", .rlock⟩
    ∧ ∀ a, step BatchSize (some [[]]) []
        ⟨⟨[], true, false, 0⟩, .crashed "index out of range", .rlock⟩ a = none := by
  refine ⟨by decide!, by decide!, by decide!, fun a => rfl⟩

/-- C4 (counterexample): a three-field line with a price that is not numeric
and a timestamp that does not parse is stored by the worker under its id, as a
record with price `0` and the zero expiration date. -/
theorem C4_counterexample :
    storePromotions [] "p1,abc,tomorrow noon".toList
      = .ok [("p1".toList,
          "\x7b\"id\":\"p1\",\"price\":0,\"expiration_date\":\"0001-01-01 00:00:00\"\x7d".toList)] := by
  decide!

/-- C4, amended: for a three-field line whose price is not numeric, or whose
timestamp without its last token is rejected by `time.Parse`, parsing does
not fail: the errors are dropped, a record is returned with the price `0`,
respectively with the expiration date `0001-01-01 00:00:00`, and the worker
writes the record under the id of the line whenever it serialises, which it
does when the price is not numeric. -/
theorem C4_parse_errors_are_dropped (store : Store) (id price value zone : Str)
    (hid : ',' ∉ id) (hprice : ',' ∉ price) (hvalue : ',' ∉ value)
    (hzc : ',' ∉ zone) (hzs : ' ' ∉ zone)
    (hbad : isNumeric price = false ∨ Parse value = none) :
    ∃ p, parsePromotion (id ++ ',' :: (price ++ ',' :: (value ++ ' ' :: zone))) = .ok p
      ∧ p.Id = id
      ∧ (p.Price = .fin false 0 (-1074) ∨ p.ExpirationDate = "0001-01-01 00:00:00".toList)
      ∧ (isNumeric price = false → p.Price = .fin false 0 (-1074) ∧ (Marshal p).isSome = true)
      ∧ (Parse value = none → p.ExpirationDate = "0001-01-01 00:00:00".toList)
      ∧ ∀ v, Marshal p = some v →
          storePromotions store (id ++ ',' :: (price ++ ',' :: (value ++ ' ' :: zone)))
            = .ok (store.Set id v)
          ∧ (store.Set id v).Get id = some v := by
  have hp := parsePromotion_three_fields id price value zone hid hprice hvalue hzc hzs
  have hprice0 : isNumeric price = false →
      (Ceil ((ParseFloat price).mul (F64.ofNat 100))).div (F64.ofNat 100)
        = .fin false 0 (-1074) := by
    intro h
    rw [ParseFloat_not_numeric price h]
    decide!
  have hdate0 : Parse value = none →
      ((Parse value).getD Time.zero).Format = "0001-01-01 00:00:00".toList := by
    intro h
    rw [h]
    decide
  refine ⟨_, hp, rfl, ?_, ?_, hdate0, ?_⟩
  · rcases hbad with h | h
    · exact Or.inl (hprice0 h)
    · exact Or.inr (hdate0 h)
  · intro h
    refine ⟨hprice0 h, ?_⟩
    simp only [Marshal]
    rw [hprice0 h]
    rfl
  · intro v hv
    refine ⟨?_, by simp [Store.Get_Set]⟩
    unfold storePromotions
    rw [hp]
    simp only [hv]

/-- C4, amended, on a line with a price that is not numeric and a timestamp
that does not parse. -/
theorem C4_parse_errors_are_dropped_witness :
    ∃ p, parsePromotion "p1,abc,tomorrow noon".toList = .ok p
      ∧ p.Id = "p1".toList
      ∧ (p.Price = .fin false 0 (-1074) ∨ p.ExpirationDate = "0001-01-01 00:00:00".toList)
      ∧ (isNumeric "abc".toList = false →
          p.Price = .fin false 0 (-1074) ∧ (Marshal p).isSome = true)
      ∧ (Parse "tomorrow".toList = none → p.ExpirationDate = "0001-01-01 00:00:00".toList)
      ∧ ∀ v, Marshal p = some v →
          storePromotions [] "p1,abc,tomorrow noon".toList = .ok (Store.Set [] "p1".toList v)
          ∧ (Store.Set [] "p1".toList v).Get "p1".toList = some v :=
  C4_parse_errors_are_dropped [] "p1".toList "abc".toList "tomorrow".toList "noon".toList
    (by decide) (by decide) (by decide) (by decide) (by decide) (Or.inl (by decide))

/-- C5 (the code departs from the claim): the key `a` is in the store before
the rebuild and in the snapshot. The lookup takes the read lock, finds the
flag clear and releases the lock; the job then locks, flushes, sets the flag
and unlocks; the final `Get` of the lookup falls after the flush and before
the rewrite of `a`, and the answer is 404. -/
theorem C5_lookup_races_with_flush :
    (Store.Get [("a".toList, "old".toList)] "a".toList).isSome = true
    ∧ lineId "a,1,2018-08-04 05:32:31 +0200 CEST".toList = "a".toList
    ∧ (run BatchSize (some ["a,1,2018-08-04 05:32:31 +0200 CEST".toList]) "a".toList
        ⟨⟨[("a".toList, "old".toList)], false, false, 0⟩, .lock, .rlock⟩
        [.reader, .reader, .reader, .job, .job, .job, .job, .reader]).map (fun c => c.reader)
      = some (.done ⟨404, "Promotion is not found!!!".toList⟩) := by
  decide!

/-- C6 (counterexample): with `syncInProgress` already true, a second
invocation of the rebuild job is not rejected: its first two statements lock
the mutex and flush the store. -/
theorem C6_counterexample :
    run BatchSize (some []) []
        ⟨⟨[("a".toList, "v".toList)], true, false, 0⟩, .lock, .rlock⟩ [.job, .job]
      = some ⟨⟨[], true, true, 0⟩, .setFlag, .rlock⟩ := by
  decide!

/-- C6, amended: with `syncInProgress` already true and the mutex free, a
further invocation of the rebuild job is not rejected: it locks, flushes the
store, sets the flag (which stays true), unlocks, and starts `BatchSize`
workers on the lines of the file. -/
theorem C6_second_invocation_runs (sys : Sys) (r : ReadPc) (key : Str) (lines : List Str)
    (hflag : sys.syncInProgress = true) (hw : sys.writer = false) (hr : sys.readers = 0) :
    run BatchSize (some lines) key ⟨sys, .lock, r⟩ [.job, .job, .job, .job, .job]
      = some ⟨⟨[], true, false, 0⟩, .workers (createChannels BatchSize lines), r⟩ := by
  obtain ⟨store, flag, writer, readers⟩ := sys
  simp only at hflag hw hr
  subst hflag hw hr
  rfl

/-- C6, amended, on a state in which a rebuild is in progress. -/
theorem C6_second_invocation_runs_witness :
    run BatchSize (some ["a,1,2018-08-04 05:32:31 +0200 CEST".toList]) []
        ⟨⟨[("a".toList, "v".toList)], true, false, 0⟩, .lock, .rlock⟩
        [.job, .job, .job, .job, .job]
      = some ⟨⟨[], true, false, 0⟩,
          .workers (createChannels BatchSize ["a,1,2018-08-04 05:32:31 +0200 CEST".toList]),
          .rlock⟩ :=
  C6_second_invocation_runs ⟨[("a".toList, "v".toList)], true, false, 0⟩ .rlock []
    ["a,1,2018-08-04 05:32:31 +0200 CEST".toList] rfl rfl rfl

/-- C7: when a rebuild job that started at `Lock` has run to its end, under
any schedule of the job, its workers and a concurrent lookup, and from any
prior store, every key of the store is the id of a line of the snapshot, and
a lookup of an id that no line of the snapshot has answers 404. `file` is the
result of `openFile`: the lines of the snapshot that the scanner yields (all
of them, or the first of them when reading is interrupted), or `none` when
the file cannot be opened. -/
theorem C7_no_stale_key_after_rebuild (snapshot : List Str) (file : Option (List Str))
    (key : Str) (sys0 : Sys) (r0 : ReadPc) (sched : List Action) (c : Config)
    (hfile : ∀ l ∈ file.getD [], l ∈ snapshot)
    (hrun : run BatchSize file key ⟨sys0, .lock, r0⟩ sched = some c)
    (hdone : c.job = .done) :
    (∀ k, (c.sys.store.Get k).isSome = true → k ∈ snapshot.map lineId)
    ∧ ∀ id, id ∉ snapshot.map lineId →
        retrievePromotion id c.sys 4 .rlock
          = some ⟨404, "Promotion is not found!!!".toList⟩ := by
  have hinv := JobInv_run BatchSize file key sched _ c hrun trivial
  obtain ⟨sys, job, r⟩ := c
  simp only at hdone
  subst hdone
  obtain ⟨hw, hf, hkeys0⟩ := hinv
  simp only at hw hf hkeys0
  have hkeys : ∀ k, (sys.store.Get k).isSome = true → k ∈ snapshot.map lineId := by
    intro k hk
    obtain ⟨l, hl, hlk⟩ := List.mem_map.mp (hkeys0 k hk)
    exact List.mem_map.mpr ⟨l, hfile l hl, hlk⟩
  refine ⟨hkeys, ?_⟩
  intro id hid
  have hget : sys.store.Get id = none := by
    cases hg : sys.store.Get id with
    | none => rfl
    | some v => exact absurd (hkeys id (by simp [hg])) hid
  simp only [retrievePromotion, readStep, hw, hf, hget, Bool.false_eq_true, if_false]
  decide

/-- C7, on a run: the prior store holds the key `old`, the file has one line
with the id `a`; after the job has run to its end the store holds `a` only,
and the lookup of `old` answers 404. -/
theorem C7_no_stale_key_after_rebuild_witness :
    run BatchSize (some ["a,1,2018-08-04 05:32:31 +0200 CEST".toList]) "old".toList
        ⟨⟨[("old".toList, "stale".toList)], false, false, 0⟩, .lock, .rlock⟩
        [.job, .job, .job, .job, .job, .recv 7, .work 7, .job, .job]
      = some ⟨⟨[("a".toList,
            "\x7b\"id\":\"a\",\"price\":1,\"expiration_date\":\"2018-08-02 05:32:31\"\x7d".toList)],
          false, false, 0⟩, .done, .rlock⟩
    ∧ retrievePromotion "old".toList
        ⟨[("a".toList,
            "\x7b\"id\":\"a\",\"price\":1,\"expiration_date\":\"2018-08-02 05:32:31\"\x7d".toList)],
          false, false, 0⟩ 4 .rlock
      = some ⟨404, "Promotion is not found!!!".toList⟩ :=
  ⟨by decide!,
   (C7_no_stale_key_after_rebuild ["a,1,2018-08-04 05:32:31 +0200 CEST".toList]
      (some ["a,1,2018-08-04 05:32:31 +0200 CEST".toList])
      "old".toList ⟨[("old".toList, "stale".toList)], false, false, 0⟩ .rlock
      [.job, .job, .job, .job, .job, .recv 7, .work 7, .job, .job]
      ⟨⟨[("a".toList,
            "\x7b\"id\":\"a\",\"price\":1,\"expiration_date\":\"2018-08-02 05:32:31\"\x7d".toList)],
          false, false, 0⟩, .done, .rlock⟩ (fun _ h => h) (by decide!) rfl).2
      "old".toList (by decide!)⟩

/-- C8: on lines that parse, a pool of 1 worker and a pool of 100 workers both
run to the end, and whatever the distribution of the lines over the workers
and the order of their writes, every finished run from the flushed store
leaves the same key set: the ids of the lines whose record serialises. -/
theorem C8_pool_size_independent (lines : List Str)
    (hwf : ∀ l ∈ lines, (parsePromotion l).isOk = true) :
    (∃ sched s1 p1, Pool.run [] (createChannels 1 lines) sched = some (.ok (s1, p1))
        ∧ p1.finished = true)
    ∧ (∃ sched s100 p100, Pool.run [] (createChannels 100 lines) sched = some (.ok (s100, p100))
        ∧ p100.finished = true)
    ∧ ∀ (sched1 sched100 : List Action) (s1 s100 : Store) (p1 p100 : Pool),
        Pool.run [] (createChannels 1 lines) sched1 = some (.ok (s1, p1)) →
        p1.finished = true →
        Pool.run [] (createChannels 100 lines) sched100 = some (.ok (s100, p100)) →
        p100.finished = true →
        ∀ k, ((s1.Get k).isSome = true ↔ ∃ l ∈ lines, writes l k)
          ∧ ((s100.Get k).isSome = true ↔ ∃ l ∈ lines, writes l k) := by
  refine ⟨?_, ?_, ?_⟩
  · obtain ⟨s, hs⟩ := Pool.run_firstWorker lines [] [] hwf
    exact ⟨_, s, _, hs, rfl⟩
  · obtain ⟨s, hs⟩ := Pool.run_firstWorker lines (List.replicate 99 none) [] hwf
    exact ⟨_, s, _, hs, by decide⟩
  · intro sched1 sched100 s1 s100 p1 p100 h1 f1 h100 f100 k
    have e1 := Pool.run_keys 1 lines sched1 [] s1 p1 h1 f1 k
    have e100 := Pool.run_keys 100 lines sched100 [] s100 p100 h100 f100 k
    simp only [Store.Get, Option.isSome_none, Bool.false_eq_true, false_or] at e1 e100
    exact ⟨e1, e100⟩

/-- C8, on two lines: one worker stores `a` and then `b`; of a hundred
workers, the second stores `b` before the first stores `a`. -/
theorem C8_pool_size_independent_witness :
    (∀ l ∈ ["a,1,2018-08-04 05:32:31 +0200 CEST".toList,
             "b,2,2018-08-05 05:32:31 +0200 CEST".toList], (parsePromotion l).isOk = true)
    ∧ ∀ k,
      ((Store.Get
          [("b".toList, "\x7b\"id\":\"b\",\"price\":2,\"expiration_date\":\"2018-08-02 05:32:31\"\x7d".toList),
           ("a".toList, "\x7b\"id\":\"a\",\"price\":1,\"expiration_date\":\"2018-08-02 05:32:31\"\x7d".toList)]
          k).isSome = true
        ↔ ∃ l ∈ ["a,1,2018-08-04 05:32:31 +0200 CEST".toList,
                  "b,2,2018-08-05 05:32:31 +0200 CEST".toList], writes l k)
      ∧ ((Store.Get
          [("a".toList, "\x7b\"id\":\"a\",\"price\":1,\"expiration_date\":\"2018-08-02 05:32:31\"\x7d".toList),
           ("b".toList, "\x7b\"id\":\"b\",\"price\":2,\"expiration_date\":\"2018-08-02 05:32:31\"\x7d".toList)]
          k).isSome = true
        ↔ ∃ l ∈ ["a,1,2018-08-04 05:32:31 +0200 CEST".toList,
                  "b,2,2018-08-05 05:32:31 +0200 CEST".toList], writes l k) :=
  ⟨by decide!,
   (C8_pool_size_independent _ (by decide!)).2.2
     [.recv 0, .work 0, .recv 0, .work 0] [.recv 0, .recv 1, .work 1, .work 0]
     _ _ ⟨[], [none]⟩ ⟨[], List.replicate 100 none⟩
     (by decide!) (by decide!) (by decide!) (by decide!)⟩

/-- C9 (the code departs from the claim): the line with the id `a%` is stored
as a record with a `%` in it; with no rebuild active, the lookup uses the
stored string as the format of `Fprintf`, so the `%` is expanded as a verb
without operand: the body is not the stored string. -/
theorem C9_percent_in_stored_value :
    storePromotions [] "a%,1,2018-08-04 05:32:31 +0200 CEST".toList
      = .ok [("a%".toList, "\x7b\"id\":\"a%\",\"price\":1,\"expiration_date\":\"2018-08-02 05:32:31\"\x7d".toList)]
    ∧ retrievePromotion "a%".toList
        ⟨[("a%".toList, "\x7b\"id\":\"a%\",\"price\":1,\"expiration_date\":\"2018-08-02 05:32:31\"\x7d".toList)],
          false, false, 0⟩ 4 .rlock
      = some ⟨200,
          "\x7b\"id\":\"a%!\"(MISSING),\"price\":1,\"expiration_date\":\"2018-08-02 05:32:31\"\x7d".toList⟩ := by
  decide!

/-- C10: for a timestamp `YYYY-MM-DD HH:MM:SS +NN00 ZZZ` only the last token
`ZZZ` is dropped, and the digits `NN` after the `+` are read as the day of the
month: the expiration date is the source date and time with its day replaced
by `NN` when `NN` is a day of that month, and `0001-01-01 00:00:00` when it is
not. The date and time are given by their fields, each written with its two
(the year four) digits by `Time.Format`. -/
theorem C10_offset_digits_replace_day (id price zone : Str) (y mo d h mi s nn : Nat)
    (hid : ',' ∉ id) (hprice : ',' ∉ price) (hzc : ',' ∉ zone) (hzs : ' ' ∉ zone)
    (hy : y < 10000) (hmo1 : 1 ≤ mo) (hmo2 : mo ≤ 12) (hd : d < 100) (hh : h < 24)
    (hmi : mi < 60) (hs : s < 60) (hnn : nn < 100) :
    ∃ p, parsePromotion (id ++ ',' :: (price ++ ',' ::
          ((Time.Format ⟨y, mo, d, h, mi, s⟩ ++ " +".toList ++ appendInt nn 2 ++ "00".toList)
            ++ ' ' :: zone))) = .ok p
      ∧ p.Id = id
      ∧ p.ExpirationDate =
          if 1 ≤ nn ∧ nn ≤ daysIn mo y then Time.Format ⟨y, mo, nn, h, mi, s⟩
          else "0001-01-01 00:00:00".toList := by
  have hfmt : ',' ∉ Time.Format ⟨y, mo, d, h, mi, s⟩ :=
    Format_no_comma _ hy (by show mo < 100; omega) hd (by show h < 100; omega)
      (by show mi < 100; omega) (by show s < 100; omega)
  have hvalue : ',' ∉ Time.Format ⟨y, mo, d, h, mi, s⟩ ++ " +".toList ++ appendInt nn 2
      ++ "00".toList := by
    have c1 := digitChar_ne_comma (nn / 10) (by omega)
    have c2 := digitChar_ne_comma (nn % 10) (by omega)
    simp only [List.mem_append, not_or, appendInt_two nn hnn]
    refine ⟨⟨⟨hfmt, by decide⟩, ?_⟩, by decide⟩
    simp [Ne.symm c1, Ne.symm c2]
  refine ⟨_, parsePromotion_three_fields id price _ zone hid hprice hvalue hzc hzs, rfl, ?_⟩
  show ((Parse _).getD Time.zero).Format = _
  rw [Parse_offset_as_day y mo d h mi s nn hy hmo1 hmo2 hd hh hmi hs hnn]
  by_cases hv : 1 ≤ nn ∧ nn ≤ daysIn mo y
  · rw [if_pos hv, if_pos hv]; rfl
  · rw [if_neg hv, if_neg hv]; decide

/-- C10, at the timestamp of the claim: `2018-08-04 05:32:31 +0200 CEST` gives
`2018-08-02 05:32:31`. -/
theorem C10_offset_digits_replace_day_witness :
    ∃ p, parsePromotion "d018ef0b,60.683466,2018-08-04 05:32:31 +0200 CEST".toList = .ok p
      ∧ p.Id = "d018ef0b".toList
      ∧ p.ExpirationDate = "2018-08-02 05:32:31".toList :=
  C10_offset_digits_replace_day "d018ef0b".toList "60.683466".toList "CEST".toList
    2018 8 4 5 32 31 2 (by decide) (by decide) (by decide) (by decide) (by decide) (by decide)
    (by decide) (by decide) (by decide) (by decide) (by decide) (by decide)

end Storage
